import Mathlib

/-!
Shallow embedding of the Hybrid Search + Rank Fusion subsystem of the
repository (files `14_hybrid_search_agent.py` and `15_reranking_agent.py`),
together with theorems settling the frozen claims about it.

Modelling conventions:
* Python floats are modelled as exact rationals (`ℚ`); the transcendental
  helpers `math.log` and `math.sqrt` are modelled as an abstract parameter
  (`plog`, `psqrt`) threaded through the definitions, since no claim depends
  on their analytic properties, only on where the code applies them.
* Python dictionaries keyed by strings/ints are modelled either by their
  lookup function (the BM25 `idf` / `term_doc_freq` statistics) or by
  association lists (document metadata, SPLADE sparse vectors).
* Python `sorted(..., key=..., reverse=True)` is a stable sort placing larger
  keys first; `sortDescBy` below implements exactly that semantics
  (insertion sort that keeps the input order of equal keys), which is
  extensionally the unique stable descending sort.
* Mutation of Python objects (the in-place updates performed by
  `reciprocal_rank_fusion` and `SPLADESearcher.build_index` on their inputs)
  is modelled by returning the updated lists explicitly.
-/

namespace HybridSearch

/-! ### Stable descending sort (model of Python `sorted(key=..., reverse=True)`) -/

/-- Insert `x` into `l`, skipping the elements whose key is strictly larger
than the key of `x`, so that `x` lands before every element of `l` whose key
is `≤` its own.  Inserting into a descending-sorted list keeps it sorted and
keeps equal keys in insertion order. -/
def insertDescBy {α : Type} (key : α → ℚ) (x : α) : List α → List α
  | [] => [x]
  | y :: ys => if key x < key y then y :: insertDescBy key x ys else x :: y :: ys

/-- Stable descending sort by a rational key: the model of Python
`sorted(l, key=key, reverse=True)`. -/
def sortDescBy {α : Type} (key : α → ℚ) : List α → List α
  | [] => []
  | x :: xs => insertDescBy key x (sortDescBy key xs)

/-! ### Tokenisation (model of `BM25Searcher.tokenize` / `SPLADESearcher._tokenize`) -/

/-- Whitespace split of a character list, discarding empty pieces: the model of
Python `str.split()` with no separator.  The accumulator holds the current
word reversed. -/
def pySplitAux (acc : List Char) : List Char → List String
  | [] => if acc.isEmpty then [] else [String.mk acc.reverse]
  | c :: cs =>
    if c.isWhitespace then
      if acc.isEmpty then pySplitAux [] cs
      else String.mk acc.reverse :: pySplitAux [] cs
    else pySplitAux (c :: acc) cs

/-- Python `text.split()`. -/
def pySplit (cs : List Char) : List String := pySplitAux [] cs

/-- Python regex class `\w` restricted to ASCII: alphanumeric or underscore. -/
def isPyWordChar (c : Char) : Bool := c.isAlphanum || c = '_'

/-- Model of `tokenize` (identical in `BM25Searcher` and `SPLADESearcher`):
lowercase, replace every character that is neither a word character nor
whitespace by a space, split on whitespace, drop tokens of length `≤ 2`. -/
def tokenize (s : String) : List String :=
  let lowered := s.toList.map Char.toLower
  let cleaned := lowered.map (fun c => if isPyWordChar c || c.isWhitespace then c else ' ')
  (pySplit cleaned).filter (fun t => 2 < t.length)

/-! ### Data model -/

/-- Model of the `Document` dataclass.  Metadata values and is modelled with
string values; `sparse_vector : Dict[int, float]` is an association list. -/
structure Document where
  doc_id : String
  content : String
  metadata : List (String × String)
  embedding : Option (List ℚ)
  sparse_vector : Option (List (ℕ × ℚ))
deriving DecidableEq, Repr

/-- Model of the `SearchResult` dataclass. -/
structure SearchResult where
  doc_id : String
  score : ℚ
  rank : ℕ
  content : String
  metadata : List (String × String)
  method : String
deriving DecidableEq, Repr

/-! ### BM25 (model of `BM25Searcher`) -/

/-- Document frequency of a term: the number of corpus documents whose token
list contains it (`term_doc_counts` in `build_index`, which counts each
document once via `set(tokens)`). -/
def termDF (docs : List Document) (t : String) : ℕ :=
  docs.countP (fun d => (tokenize d.content).contains t)

/-- State of a `BM25Searcher` after `build_index`.  The Python dicts
`self.idf` and `self.term_doc_freq` are modelled by their lookup functions
(with the `dict.get(term, 0.0)` default of `search` baked in: terms absent
from the corpus map to `0`). -/
structure BM25State where
  k1 : ℚ
  b : ℚ
  documents : List Document
  docLengths : List ℕ
  avgDocLength : ℚ
  idf : String → ℚ
  termDocFreq : String → ℕ

/-- Model of `BM25Searcher.build_index`. -/
def bm25BuildIndex (plog : ℚ → ℚ) (k1 b : ℚ) (docs : List Document) : BM25State :=
  let lengths := docs.map (fun d => (tokenize d.content).length)
  let N : ℕ := docs.length
  let df := termDF docs
  { k1 := k1, b := b, documents := docs, docLengths := lengths,
    avgDocLength := if lengths.isEmpty then 0 else (lengths.sum : ℚ) / (lengths.length : ℚ),
    idf := fun t => if df t = 0 then 0
      else plog (((N : ℚ) - (df t : ℚ) + 1/2) / ((df t : ℚ) + 1/2) + 1),
    termDocFreq := df }

/-- Per-document BM25 score as computed inside `BM25Searcher.search`: the sum
over query tokens, where a token absent from the document
(`term not in term_freqs`) contributes `0`. -/
def bm25DocScore (st : BM25State) (queryTokens : List String) (d : Document)
    (docLength : ℕ) : ℚ :=
  (queryTokens.map (fun t =>
    let tf : ℕ := (tokenize d.content).count t
    if tf = 0 then 0
    else
      let idf := st.idf t
      let normalizedLength : ℚ :=
        if 0 < st.avgDocLength then (docLength : ℚ) / st.avgDocLength else 1
      idf * (((tf : ℚ) * (st.k1 + 1)) /
        ((tf : ℚ) + st.k1 * (1 - st.b + st.b * normalizedLength))))).sum

/-- The `(index, document, score)` list built by the loop of
`BM25Searcher.search` (the document is carried alongside its index, which the
Python code recovers later as `self.documents[doc_idx]`). -/
def bm25Scored (st : BM25State) (query : String) : List (ℕ × Document × ℚ) :=
  ((st.documents.zip st.docLengths).enum).map
    (fun p => (p.1, p.2.1, bm25DocScore st (tokenize query) p.2.1 p.2.2))

/-- The scored list after `scores.sort(key=lambda x: x[1], reverse=True)`. -/
def bm25Ranking (st : BM25State) (query : String) : List (ℕ × Document × ℚ) :=
  sortDescBy (fun e => e.2.2) (bm25Scored st query)

/-- Model of `BM25Searcher.search`. -/
def bm25Search (st : BM25State) (query : String) (topk : ℕ) : List SearchResult :=
  ((bm25Ranking st query).take topk).enum.map (fun p =>
    { doc_id := p.2.2.1.doc_id, score := p.2.2.2, rank := p.1 + 1,
      content := p.2.2.1.content, metadata := p.2.2.1.metadata, method := "bm25" })

/-! ### BM25 specification-side definitions (transcribed from the claim) -/

/-- The claim's inverse document frequency:
`idf(term) = ln((N - df + 0.5) / (df + 0.5) + 1)`. -/
def bm25SpecIdf (plog : ℚ → ℚ) (docs : List Document) (t : String) : ℚ :=
  plog ((((docs.length : ℚ) - (termDF docs t : ℚ) + 1/2) /
    ((termDF docs t : ℚ) + 1/2)) + 1)

/-- The claim's per-document score: the sum over query terms of
`idf(term) * (tf*(k1+1)) / (tf + k1*(1 - b + b*docLen/avgDocLen))`, a term
with `tf = 0` contributing nothing. -/
def bm25SpecScore (plog : ℚ → ℚ) (k1 b : ℚ) (docs : List Document)
    (query : String) (d : Document) : ℚ :=
  let docLen : ℚ := ((tokenize d.content).length : ℚ)
  let avg : ℚ := ((docs.map (fun e => (tokenize e.content).length)).sum : ℚ) /
    ((docs.length : ℚ))
  ((tokenize query).map (fun t =>
    let tf : ℕ := (tokenize d.content).count t
    if tf = 0 then 0
    else bm25SpecIdf plog docs t *
      (((tf : ℚ) * (k1 + 1)) / ((tf : ℚ) + k1 * (1 - b + b * (docLen / avg)))))).sum

/-! ### Dense vector search (model of `DenseSearcher`) -/

/-- Model of `DenseSearcher.cosine_similarity`, with `math.sqrt` as the
abstract parameter `psqrt`.  Empty vectors, mismatched lengths and zero norms
all yield `0`. -/
def cosineSimilarity (psqrt : ℚ → ℚ) (vec1 vec2 : List ℚ) : ℚ :=
  if vec1.isEmpty ∨ vec2.isEmpty ∨ vec1.length ≠ vec2.length then 0
  else
    let dotProduct := ((vec1.zip vec2).map (fun p => p.1 * p.2)).sum
    let norm1 := psqrt ((vec1.map (fun a => a * a)).sum)
    let norm2 := psqrt ((vec2.map (fun a => a * a)).sum)
    if norm1 = 0 ∨ norm2 = 0 then 0 else dotProduct / (norm1 * norm2)

/-- Model of `DenseSearcher.embed_query` (the dummy fixed vector
`[0.1] * 768`). -/
def embedQuery (_query : String) : List ℚ := List.replicate 768 (1/10)

/-- Per-document score inside `DenseSearcher.search`: a document without an
embedding scores `0`. -/
def denseScore (psqrt : ℚ → ℚ) (queryEmbedding : List ℚ) (d : Document) : ℚ :=
  match d.embedding with
  | none => 0
  | some e => cosineSimilarity psqrt queryEmbedding e

/-- Model of `DenseSearcher.search` (`build_index` just stores the document
list, so the searcher state is the list itself). -/
def denseSearch (psqrt : ℚ → ℚ) (docs : List Document) (query : String)
    (topk : ℕ) : List SearchResult :=
  let qe := embedQuery query
  let scores := docs.map (fun d => (d, denseScore psqrt qe d))
  let ranked := sortDescBy (fun p => p.2) scores
  (ranked.take topk).enum.map (fun p =>
    { doc_id := p.2.1.doc_id, score := p.2.2, rank := p.1 + 1,
      content := p.2.1.content, metadata := p.2.1.metadata, method := "dense" })

/-- Model of `DenseSearcher.build_index`, which just stores the document
list (`self.documents = documents`). -/
def denseBuildIndex (docs : List Document) : List Document := docs

/-! ### SPLADE search (model of `SPLADESearcher`) -/

/-- Lexicographic strict comparison of character lists by code point: the
order Python uses to compare strings. -/
def ltChars : List Char → List Char → Bool
  | [], [] => false
  | [], _ :: _ => true
  | _ :: _, [] => false
  | c :: cs, d :: ds => if c < d then true else if d < c then false else ltChars cs ds

/-- Python string `<`. -/
def strLtB (x y : String) : Bool := ltChars x.toList y.toList

/-- Ascending insertion sort on strings (model of Python `sorted` on a set of
strings; the input has no duplicates, so stability is irrelevant). -/
def insertStrAsc (x : String) : List String → List String
  | [] => [x]
  | y :: ys => if strLtB x y then x :: y :: ys else y :: insertStrAsc x ys

/-- Ascending sort on strings. -/
def sortStrAsc : List String → List String
  | [] => []
  | x :: xs => insertStrAsc x (sortStrAsc xs)

/-- Distinct elements of a list in first-occurrence order: the model of the
key order of a Python `Counter`/`dict` built by insertion. -/
def uniqFirstAux (seen : List String) : List String → List String
  | [] => []
  | t :: ts => if t ∈ seen then uniqFirstAux seen ts else t :: uniqFirstAux (t :: seen) ts

/-- Distinct elements in first-occurrence order. -/
def uniqFirst (l : List String) : List String := uniqFirstAux [] l

/-- Model of `SPLADESearcher.build_vocab`: the sorted list of all distinct
corpus tokens; a term's id is its position in this list. -/
def buildVocabList (docs : List Document) : List String :=
  sortStrAsc ((docs.map (fun d => tokenize d.content)).flatten.dedup)

/-- Model of `SPLADESearcher.encode_to_sparse_vector`: for each distinct token
of the text that occurs in the vocabulary, emit `(term_id, log(1 + count))`. -/
def spladeEncode (plog : ℚ → ℚ) (vocab : List String) (text : String) :
    List (ℕ × ℚ) :=
  (uniqFirst (tokenize text)).filterMap (fun t =>
    match vocab.findIdx? (fun v => v = t) with
    | some i => some (i, plog (1 + ((tokenize text).count t : ℚ)))
    | none => none)

/-- State of a `SPLADESearcher` after `build_index`.  The `documents` field
holds the document list as mutated by `build_index` (which writes
`doc.sparse_vector` in place when it is missing). -/
structure SpladeState where
  documents : List Document
  vocab : List String

/-- Model of `SPLADESearcher.build_index`: builds the vocabulary, then fills
in `doc.sparse_vector` for every document that lacks one (in-place mutation of
the caller's documents, modelled by returning the updated list). -/
def spladeBuildIndex (plog : ℚ → ℚ) (docs : List Document) : SpladeState :=
  let vocab := buildVocabList docs
  let docs2 := docs.map (fun d =>
    if d.sparse_vector = none then
      { d with sparse_vector := some (spladeEncode plog vocab d.content) }
    else d)
  { documents := docs2, vocab := vocab }

/-- Model of `SPLADESearcher.sparse_similarity` (sparse dot product). -/
def sparseSimilarity (vec1 vec2 : List (ℕ × ℚ)) : ℚ :=
  (vec1.map (fun p =>
    match vec2.lookup p.1 with
    | some w2 => p.2 * w2
    | none => 0)).sum

/-- Model of `SPLADESearcher.search`. -/
def spladeSearch (plog : ℚ → ℚ) (st : SpladeState) (query : String)
    (topk : ℕ) : List SearchResult :=
  let qv := spladeEncode plog st.vocab query
  let scores := st.documents.map (fun d =>
    (d, match d.sparse_vector with
        | none => 0
        | some v => sparseSimilarity qv v))
  let ranked := sortDescBy (fun p => p.2) scores
  (ranked.take topk).enum.map (fun p =>
    { doc_id := p.2.1.doc_id, score := p.2.2, rank := p.1 + 1,
      content := p.2.1.content, metadata := p.2.1.metadata, method := "splade" })

/-! ### Reciprocal Rank Fusion (model of `HybridSearchAgent.reciprocal_rank_fusion`) -/

/-- Placeholder `SearchResult` used to totalise the (unreachable) lookup of a
document id that has no occurrence. -/
def dummyResult : SearchResult :=
  { doc_id := "", score := 0, rank := 0, content := "", metadata := [], method := "" }

/-- RRF score of a document id as accumulated by the code: the sum of
`1 / (k + rank)` over every occurrence of the id in the concatenated result
lists (`rrf_scores[result.doc_id] += 1.0 / (k + result.rank)`). -/
def rrfScore (k : ℕ) (occs : List SearchResult) (id : String) : ℚ :=
  ((occs.filter (fun o => o.doc_id = id)).map
    (fun o => 1 / ((k : ℚ) + (o.rank : ℚ)))).sum

/-- The claim's RRF score: the sum over the methods that ranked the document
of `1 / (k + rank_in_that_method)`, absent methods contributing `0`. -/
def rrfSpecScore (k : ℕ) (ls : List (List SearchResult)) (id : String) : ℚ :=
  (ls.map (fun l =>
    match l.find? (fun o => o.doc_id = id) with
    | some o => 1 / ((k : ℚ) + (o.rank : ℚ))
    | none => 0)).sum

/-- The entry `doc_map[id]` holds after the accumulation loop: the last
occurrence of the id in iteration order. -/
def lastOcc (occs : List SearchResult) (id : String) : Option SearchResult :=
  (occs.filter (fun o => o.doc_id = id)).getLast?

/-- Document ids in first-insertion order (the key order of the
`rrf_scores` dict). -/
def rrfIds (lists : List (List SearchResult)) : List String :=
  uniqFirst (lists.flatten.map (fun o => o.doc_id))

/-- The `sorted_docs` list: `(doc_id, summed score)` pairs sorted by score
descending (stable on the dict insertion order). -/
def rrfSorted (k : ℕ) (lists : List (List SearchResult)) : List (String × ℚ) :=
  sortDescBy (fun p => p.2)
    ((rrfIds lists).map (fun id => (id, rrfScore k lists.flatten id)))

/-- The fused result list returned by `reciprocal_rank_fusion`: for each
sorted entry, the last occurrence of the id is updated in place with the
fused score, the 1-based fused rank and `method="hybrid"`, and appended. -/
def rrfFused (k : ℕ) (lists : List (List SearchResult)) : List SearchResult :=
  (rrfSorted k lists).enum.map (fun p =>
    { (lastOcc lists.flatten p.2.1).getD dummyResult with
        score := p.2.2, rank := p.1 + 1, method := "hybrid" })

/-- Whether some occurrence of `id` appears strictly after position `p` of
list `i` (later in list `i`, or anywhere in a later list). -/
def occAfter (lists : List (List SearchResult)) (i p : ℕ) (id : String) : Bool :=
  ((lists.getD i []).drop (p + 1)).any (fun o => o.doc_id = id)
    || (lists.drop (i + 1)).any (fun l => l.any (fun o => o.doc_id = id))

/-- The in-place update `result.score = score; result.rank = rank;
result.method = "hybrid"` that the fusion loop performs on `doc_map[doc_id]`:
the occurrence receives the fused score and the 1-based position of its id in
the sorted list. -/
def rrfMutOne (sorted : List (String × ℚ)) (o : SearchResult) : SearchResult :=
  match sorted.enum.find? (fun p => p.2.1 = o.doc_id) with
  | some e => { o with score := e.2.2, rank := e.1 + 1, method := "hybrid" }
  | none => o

/-- The state of the input lists after `reciprocal_rank_fusion` returns: the
last occurrence of every document id has been mutated in place with the fused
score, fused rank and `method="hybrid"`; all other occurrences are
untouched. -/
def rrfMutate (k : ℕ) (lists : List (List SearchResult)) :
    List (List SearchResult) :=
  let sorted := rrfSorted k lists
  lists.enum.map (fun q =>
    q.2.enum.map (fun w =>
      if occAfter lists q.1 w.1 w.2.doc_id then w.2
      else rrfMutOne sorted w.2))

/-! ### Dynamic alpha adjustment (model of `HybridSearchAgent.dynamic_alpha_adjustment`) -/

/-- Model of the `FusionWeights` mapping returned by
`dynamic_alpha_adjustment` (a dict with the three fixed keys). -/
structure FusionWeights where
  bm25 : ℚ
  dense : ℚ
  splade : ℚ
deriving DecidableEq, Repr

/-- Python `query.split()`. -/
def pyWords (query : String) : List String := pySplit query.toList

/-- Python `w and w[0].isupper()` on a word. -/
def isCapitalized (w : String) : Bool :=
  match w.toList with
  | [] => false
  | c :: _ => c.isUpper

/-- Model of `HybridSearchAgent.dynamic_alpha_adjustment`. -/
def dynamicAlphaAdjustment (query : String) : FusionWeights :=
  let words := pyWords query
  let wordCount := words.length
  let weights : FusionWeights :=
    if wordCount ≤ 3 then ⟨2/5, 1/5, 2/5⟩
    else if 10 ≤ wordCount then ⟨1/5, 1/2, 3/10⟩
    else ⟨3/10, 2/5, 3/10⟩
  let properNouns := (words.filter (fun w => isCapitalized w)).length
  if ((properNouns : ℚ)) ≥ (wordCount : ℚ) * (1/2) then
    { weights with bm25 := weights.bm25 + 1/10, dense := weights.dense - 1/10 }
  else weights

/-- Transcription of the claim's description of `dynamic_alpha_adjustment`:
default `{0.3, 0.4, 0.3}`, short queries (≤ 3 tokens) give `{0.4, 0.2, 0.4}`,
long queries (≥ 10 tokens) give `{0.2, 0.5, 0.3}`, and when at least 50% of
the tokens are capitalized, `0.1` moves from dense to bm25. -/
def dynamicAlphaSpec (query : String) : FusionWeights :=
  let words := pyWords query
  let base : FusionWeights :=
    if words.length ≤ 3 then ⟨2/5, 1/5, 2/5⟩
    else if 10 ≤ words.length then ⟨1/5, 1/2, 3/10⟩
    else ⟨3/10, 2/5, 3/10⟩
  if (((words.filter isCapitalized).length : ℚ)) ≥ (words.length : ℚ) / 2 then
    ⟨base.bm25 + 1/10, base.dense - 1/10, base.splade⟩
  else base

/-- First document of the demonstration corpus used by the concrete
witnesses (mirroring the corpus of the test scenario in the spec). -/
def demoDoc1 : Document :=
  { doc_id := "d1", content := "python programming language",
    metadata := [("file_type", "python")], embedding := none, sparse_vector := none }

/-- Second document of the demonstration corpus. -/
def demoDoc2 : Document :=
  { doc_id := "d2", content := "javascript web browser",
    metadata := [("file_type", "javascript")], embedding := none, sparse_vector := none }

/-- Third document of the demonstration corpus. -/
def demoDoc3 : Document :=
  { doc_id := "d3", content := "python machine learning",
    metadata := [("file_type", "python")], embedding := none, sparse_vector := none }

/-- Weighted score of a document id in `HybridSearchAgent.weighted_fusion`:
the sum over the three methods of `raw score * weight` (the zip with the
method-name list limits the fusion to the first three result lists). -/
def weightedScore (w : FusionWeights) (ls : List (List SearchResult))
    (id : String) : ℚ :=
  (([w.bm25, w.dense, w.splade].zip ls).map (fun q =>
    ((q.2.filter (fun o => o.doc_id = id)).map (fun o => o.score * q.1)).sum)).sum

/-- Model of `HybridSearchAgent.weighted_fusion` (the in-place mutation of
the freshly built per-call result lists is unobservable and omitted). -/
def weightedFusion (w : FusionWeights) (ls : List (List SearchResult)) :
    List SearchResult :=
  let pairs := [w.bm25, w.dense, w.splade].zip ls
  let occs := (pairs.map (fun q => q.2)).flatten
  let ids := uniqFirst (occs.map (fun o => o.doc_id))
  let sorted := sortDescBy (fun p => p.2) (ids.map (fun id => (id, weightedScore w ls id)))
  sorted.enum.map (fun p =>
    { (lastOcc occs p.2.1).getD dummyResult with
        score := p.2.2, rank := p.1 + 1, method := "hybrid_weighted" })

/-- State of a `HybridSearchAgent` after `build_index` ran all three index
builds on the (shared, SPLADE-mutated) document list. -/
structure HybridState where
  bm25St : BM25State
  denseDocs : List Document
  spladeSt : SpladeState

/-- Model of `HybridSearchAgent.build_index`: builds the three indexes over
the same document list.  The SPLADE build writes the missing sparse vectors
in place, so all three searchers end up holding the updated documents (the
BM25 statistics depend only on contents, which the mutation never touches). -/
def hybridBuildIndex (plog : ℚ → ℚ) (docs : List Document) : HybridState :=
  let sp := spladeBuildIndex plog docs
  { bm25St := bm25BuildIndex plog (3/2) (3/4) sp.documents,
    denseDocs := sp.documents,
    spladeSt := sp }

/-- Model of `HybridSearchAgent.search`: reweight (weights are only read by
weighted fusion), run the three engines with `top_k * 2`, fuse with RRF
(`k = 60`) or weighted fusion, and return the top `top_k`. -/
def hybridSearch (plog psqrt : ℚ → ℚ) (st : HybridState) (query : String)
    (topk : ℕ) (fusionMethod : String) : List SearchResult :=
  let bm25Results := bm25Search st.bm25St query (topk * 2)
  let denseResults := denseSearch psqrt st.denseDocs query (topk * 2)
  let spladeResults := spladeSearch plog st.spladeSt query (topk * 2)
  let fused :=
    if fusionMethod = "rrf" then
      rrfFused 60 [bm25Results, denseResults, spladeResults]
    else
      weightedFusion (dynamicAlphaAdjustment query)
        [bm25Results, denseResults, spladeResults]
  fused.take topk

/-- Model of `HybridSearchAgent.search_with_metadata`: over-fetch by a factor
of 3 (with the default fusion method "rrf"), keep only the results whose
metadata matches every filter pair exactly, truncate to `top_k`. -/
def hybridSearchWithMetadata (plog psqrt : ℚ → ℚ) (st : HybridState)
    (query : String) (filters : List (String × String)) (topk : ℕ) :
    List SearchResult :=
  let results := hybridSearch plog psqrt st query (topk * 3) "rrf"
  let filtered :=
    if filters.isEmpty then results
    else results.filter (fun r =>
      filters.all (fun kv => r.metadata.lookup kv.1 == some kv.2))
  filtered.take topk

/-! ### Reranking (model of `15_reranking_agent.py`) -/

/-- Model of the candidate dicts `{'doc_id', 'content', 'score', 'rank',
'metadata'}` consumed by the rerankers (the `.get` defaults of the code only
matter for dicts missing keys, which the two-stage pipeline never builds). -/
structure RerankDoc where
  doc_id : String
  content : String
  score : ℚ
  rank : ℕ
  metadata : List (String × String)
deriving DecidableEq, Repr

/-- Model of the `RankedResult` dataclass. -/
structure RankedResult where
  doc_id : String
  content : String
  original_rank : ℕ
  original_score : ℚ
  reranked_score : ℚ
  reranked_rank : ℕ
  metadata : List (String × String)
deriving DecidableEq, Repr

/-- Python `text.lower().split()`. -/
def pySplitLower (s : String) : List String := pySplit (s.toList.map Char.toLower)

/-- Model of `CrossEncoderReranker._simple_scoring`: Jaccard similarity of
the two distinct-token sets, `0` when the union is empty. -/
def simpleScoring (query content : String) : ℚ :=
  let qs := uniqFirst (pySplitLower query)
  let cs := uniqFirst (pySplitLower content)
  let inter := qs.filter (fun t => t ∈ cs)
  let union := qs ++ cs.filter (fun t => ¬ t ∈ qs)
  if union.isEmpty then 0 else (inter.length : ℚ) / (union.length : ℚ)

/-- Model of `CrossEncoderReranker.rerank`.  The final truncation mirrors the
Python `if top_k:` truthiness test: both `None` and `0` leave the result list
untruncated. -/
def crossEncoderRerank (query : String) (documents : List RerankDoc)
    (topK : Option ℕ) : List RankedResult :=
  let scores := documents.map (fun d => simpleScoring query d.content)
  let ranked := sortDescBy (fun p => p.2) (documents.zip scores)
  let results := ranked.enum.map (fun p =>
    { doc_id := p.2.1.doc_id, content := p.2.1.content,
      original_rank := p.2.1.rank, original_score := p.2.1.score,
      reranked_score := p.2.2, reranked_rank := p.1 + 1,
      metadata := p.2.1.metadata })
  match topK with
  | some k => if k = 0 then results else results.take k
  | none => results

/-- Model of `LLMReranker.rerank` (dummy implementation: rank by the carried
score, truncate with a plain slice `[:top_k]`). -/
def llmRerank (_query : String) (documents : List RerankDoc) (topK : ℕ) :
    List RankedResult :=
  let scoredDocs := documents.map (fun d => (d, d.score))
  let ranked := sortDescBy (fun p => p.2) scoredDocs
  (ranked.take topK).enum.map (fun p =>
    { doc_id := p.2.1.doc_id, content := p.2.1.content,
      original_rank := p.2.1.rank, original_score := p.2.1.score,
      reranked_score := p.2.2, reranked_rank := p.1 + 1,
      metadata := p.2.1.metadata })

/-- Model of `RerankingAgent.two_stage_reranking`: cross-encoder down to
`stage1_top_k`, convert back to candidate dicts, LLM reranker down to
`stage2_top_k`. -/
def twoStageReranking (query : String) (documents : List RerankDoc)
    (stage1TopK stage2TopK : ℕ) : List RankedResult :=
  let stage1Results := crossEncoderRerank query documents (some stage1TopK)
  let stage1Docs := stage1Results.map (fun r =>
    ({ doc_id := r.doc_id, content := r.content, score := r.reranked_score,
       rank := r.reranked_rank, metadata := r.metadata } : RerankDoc))
  llmRerank query stage1Docs stage2TopK

/-- Concrete triple of well-formed result lists on which re-fusing the same
(mutated) lists changes the ordering: documents w, x, y, p with ranks equal
to their 1-based positions in each list. -/
def cxLists : List (List SearchResult) :=
  [[⟨"y", 0, 1, "", [], "bm25"⟩, ⟨"x", 0, 2, "", [], "bm25"⟩, ⟨"w", 0, 3, "", [], "bm25"⟩],
   [⟨"x", 0, 1, "", [], "dense"⟩, ⟨"w", 0, 2, "", [], "dense"⟩],
   [⟨"w", 0, 1, "", [], "splade"⟩, ⟨"p", 0, 2, "", [], "splade"⟩, ⟨"y", 0, 3, "", [], "splade"⟩]]

/-- First per-method list of the demonstration fusion: documents "d" and "e",
both at rank 1 (ranks are data carried by the results). -/
def rrfL1 : List SearchResult :=
  [⟨"d", 0, 1, "", [], "bm25"⟩, ⟨"e", 0, 1, "", [], "bm25"⟩]

/-- Second per-method list of the demonstration fusion: only "d", at rank 1. -/
def rrfL2 : List SearchResult := [⟨"d", 0, 1, "", [], "dense"⟩]

/-- Third per-method list of the demonstration fusion: only "d", at rank 1. -/
def rrfL3 : List SearchResult := [⟨"d", 0, 1, "", [], "splade"⟩]

/-- Top result of the demonstration BM25 search, used by the C1 witness. -/
def demoC1Result : SearchResult :=
  { doc_id := "d1", score := 1, rank := 1, content := "python programming language",
    metadata := [("file_type", "python")], method := "bm25" }

/-- Result of the demonstration dense search, used by the C7 witness. -/
def demoC7Result : SearchResult :=
  { doc_id := "d1", score := 0, rank := 1, content := "python programming language",
    metadata := [("file_type", "python")], method := "dense" }

/-- Result of the demonstration filtered hybrid search, used by the C5
witness. -/
def demoC5Result : SearchResult :=
  { doc_id := "d1", score := 3/61, rank := 1, content := "python programming language",
    metadata := [("file_type", "python")], method := "hybrid" }

/-! ### Theorems -/

theorem insertDescBy_perm {α : Type} (key : α → ℚ) (x : α) (l : List α) :
    List.Perm (insertDescBy key x l) (x :: l) := by
  induction l with
  | nil => simp [insertDescBy]
  | cons y ys ih =>
    simp only [insertDescBy]
    split
    · exact ((ih.cons y).trans (List.Perm.swap x y ys))
    · exact List.Perm.refl _

theorem sortDescBy_perm {α : Type} (key : α → ℚ) (l : List α) :
    List.Perm (sortDescBy key l) l := by
  induction l with
  | nil => simp [sortDescBy]
  | cons x xs ih =>
    exact (insertDescBy_perm key x (sortDescBy key xs)).trans (ih.cons x)

theorem insertDescBy_pairwise {α : Type} (key : α → ℚ) (r : α → α → Prop) (x : α)
    (l : List α)
    (hl : l.Pairwise (fun a b => key b ≤ key a ∧ (key a = key b → r a b)))
    (hx : ∀ y ∈ l, r x y) :
    (insertDescBy key x l).Pairwise
      (fun a b => key b ≤ key a ∧ (key a = key b → r a b)) := by
  induction l with
  | nil => simp [insertDescBy]
  | cons y ys ih =>
    simp only [insertDescBy]
    rcases List.pairwise_cons.mp hl with ⟨hy, hys⟩
    split
    · rename_i hlt
      refine List.pairwise_cons.mpr ⟨?_, ih hys (fun z hz => hx z (List.mem_cons_of_mem y hz))⟩
      intro z hz
      rcases List.mem_cons.mp ((insertDescBy_perm key x ys).mem_iff.mp hz) with hzx | hzy
      · subst hzx
        exact ⟨le_of_lt hlt, fun h => absurd h (ne_of_gt hlt)⟩
      · exact hy z hzy
    · rename_i hge
      push_neg at hge
      refine List.pairwise_cons.mpr ⟨?_, hl⟩
      intro z hz
      rcases List.mem_cons.mp hz with hzy | hzys
      · subst hzy
        exact ⟨hge, fun _ => hx z (List.mem_cons_self z ys)⟩
      · rcases hy z hzys with ⟨h1, _⟩
        exact ⟨le_trans h1 hge, fun _ => hx z (List.mem_cons_of_mem y hzys)⟩

/-- Stability of `sortDescBy`: if the input is `Pairwise r` then in the output
equal keys are still ordered by `r` (in particular, equal keys keep their
original relative order), and keys are descending. -/
theorem sortDescBy_pairwise {α : Type} (key : α → ℚ) (r : α → α → Prop)
    (l : List α) (hl : l.Pairwise r) :
    (sortDescBy key l).Pairwise
      (fun a b => key b ≤ key a ∧ (key a = key b → r a b)) := by
  induction l with
  | nil => simp [sortDescBy]
  | cons x xs ih =>
    rcases List.pairwise_cons.mp hl with ⟨hx, hxs⟩
    exact insertDescBy_pairwise key r x (sortDescBy key xs) (ih hxs)
      (fun y hy => hx y ((sortDescBy_perm key xs).mem_iff.mp hy))

theorem sortDescBy_length {α : Type} (key : α → ℚ) (l : List α) :
    (sortDescBy key l).length = l.length :=
  (sortDescBy_perm key l).length_eq

theorem zip_map_self {α β : Type} (f : α → β) :
    ∀ l : List α, l.zip (l.map f) = l.map (fun a => (a, f a))
  | [] => rfl
  | x :: xs => by simp [zip_map_self f xs]

theorem pairwise_fst_lt_enumFrom {α : Type} :
    ∀ (n : ℕ) (l : List α), (l.enumFrom n).Pairwise (fun a b => a.1 < b.1)
  | _, [] => List.Pairwise.nil
  | n, x :: xs => by
    simp only [List.enumFrom]
    refine List.pairwise_cons.mpr ⟨?_, pairwise_fst_lt_enumFrom (n + 1) xs⟩
    intro p hp
    have := List.mem_enumFrom hp
    omega

theorem pairwise_fst_lt_enum {α : Type} (l : List α) :
    l.enum.Pairwise (fun a b => a.1 < b.1) :=
  pairwise_fst_lt_enumFrom 0 l

/-- Inside `search` on an index built from `docs`, the score the code computes
for a document of the corpus coincides with the claim's closed-form BM25
formula. -/
theorem bm25DocScore_eq_spec (plog : ℚ → ℚ) (k1 b : ℚ) (docs : List Document)
    (query : String) (d : Document) (hd : d ∈ docs) :
    bm25DocScore (bm25BuildIndex plog k1 b docs) (tokenize query) d
      ((tokenize d.content).length) = bm25SpecScore plog k1 b docs query d := by
  unfold bm25DocScore bm25SpecScore
  refine congrArg List.sum (List.map_congr_left ?_)
  intro t _
  by_cases h0 : (tokenize d.content).count t = 0
  · simp [h0]
  · have htf : 0 < (tokenize d.content).count t := Nat.pos_of_ne_zero h0
    have htmem : t ∈ tokenize d.content := List.count_pos_iff.mp htf
    have hdf : 0 < termDF docs t := by
      unfold termDF
      refine List.countP_pos_iff.mpr ⟨d, hd, ?_⟩
      simpa using htmem
    have hne : docs ≠ [] := by
      intro h
      rw [h] at hd
      exact absurd hd (List.not_mem_nil d)
    have hlenpos : 0 < (tokenize d.content).length := List.length_pos.mpr (by
      intro h
      rw [h] at htmem
      exact absurd htmem (List.not_mem_nil t))
    have hsum : 0 < (docs.map (fun e => (tokenize e.content).length)).sum := by
      have hmem : (tokenize d.content).length ∈
          docs.map (fun e => (tokenize e.content).length) :=
        List.mem_map_of_mem (fun e => (tokenize e.content).length) hd
      calc 0 < (tokenize d.content).length := hlenpos
        _ ≤ (docs.map (fun e => (tokenize e.content).length)).sum :=
          List.single_le_sum (fun x _ => Nat.zero_le x) _ hmem
    have hN : 0 < docs.length := List.length_pos.mpr hne
    have hmapne : ¬ (docs.map (fun e => (tokenize e.content).length)).isEmpty := by
      simp [List.isEmpty_iff, hne]
    have havg : (bm25BuildIndex plog k1 b docs).avgDocLength =
        ((docs.map (fun e => (tokenize e.content).length)).sum : ℚ) /
          ((docs.length : ℚ)) := by
      simp only [bm25BuildIndex, if_neg hmapne, List.length_map]
    have havgpos : 0 < (bm25BuildIndex plog k1 b docs).avgDocLength := by
      rw [havg]
      exact div_pos (by exact_mod_cast hsum) (by exact_mod_cast hN)
    have hidf : (bm25BuildIndex plog k1 b docs).idf t = bm25SpecIdf plog docs t := by
      simp only [bm25BuildIndex, bm25SpecIdf, if_neg (Nat.pos_iff_ne_zero.mp hdf)]
    simp only [if_neg h0]
    rw [if_pos havgpos, havg, hidf]
    rfl

/-- The scored list built by `BM25Searcher.search` on an index fresh from
`build_index` is exactly the enumerated corpus paired with the claim's BM25
scores. -/
theorem bm25Scored_eq_spec (plog : ℚ → ℚ) (k1 b : ℚ) (docs : List Document)
    (query : String) :
    bm25Scored (bm25BuildIndex plog k1 b docs) query =
      docs.enum.map (fun p => (p.1, p.2, bm25SpecScore plog k1 b docs query p.2)) := by
  unfold bm25Scored
  have h1 : (bm25BuildIndex plog k1 b docs).documents = docs := rfl
  have h2 : (bm25BuildIndex plog k1 b docs).docLengths =
      docs.map (fun d => (tokenize d.content).length) := rfl
  rw [h1, h2, zip_map_self, List.enum_map, List.map_map]
  refine List.map_congr_left ?_
  intro p hp
  have hd : p.2 ∈ docs := List.snd_mem_of_mem_enum hp
  have := bm25DocScore_eq_spec plog k1 b docs query p.2 hd
  simp only [Function.comp_def, Prod.map, id]
  rw [this]

theorem bm25Ranking_length (plog : ℚ → ℚ) (k1 b : ℚ) (docs : List Document)
    (query : String) :
    (bm25Ranking (bm25BuildIndex plog k1 b docs) query).length = docs.length := by
  rw [bm25Ranking, sortDescBy_length, bm25Scored_eq_spec, List.length_map,
    List.enum_length]

/-- Claim C1.  On an index built by `BM25Searcher.build_index` from any corpus,
`BM25Searcher.search` scores each document by the claim's BM25 formula (the
ranking is a permutation of the enumerated corpus carrying
`bm25SpecScore`); the ranking is sorted by score descending with ties broken
by the original insertion order of the documents; and the returned list is the
top `top_k` of that ranking, with 1-based ranks and `method = "bm25"`. -/
theorem claim_C1_bm25_search (plog : ℚ → ℚ) (k1 b : ℚ) (docs : List Document)
    (query : String) (topk : ℕ) :
    List.Perm (bm25Ranking (bm25BuildIndex plog k1 b docs) query)
        (docs.enum.map (fun p => (p.1, p.2, bm25SpecScore plog k1 b docs query p.2)))
    ∧ (bm25Ranking (bm25BuildIndex plog k1 b docs) query).Pairwise
        (fun a c => c.2.2 ≤ a.2.2 ∧ (a.2.2 = c.2.2 → a.1 < c.1))
    ∧ bm25Search (bm25BuildIndex plog k1 b docs) query topk =
        ((bm25Ranking (bm25BuildIndex plog k1 b docs) query).take topk).enum.map
          (fun p =>
            { doc_id := p.2.2.1.doc_id, score := p.2.2.2, rank := p.1 + 1,
              content := p.2.2.1.content, metadata := p.2.2.1.metadata, method := "bm25" })
    ∧ (bm25Search (bm25BuildIndex plog k1 b docs) query topk).length = min topk docs.length
    ∧ ∀ r ∈ bm25Search (bm25BuildIndex plog k1 b docs) query topk,
        r.method = "bm25" ∧ 1 ≤ r.rank ∧ r.rank ≤ min topk docs.length := by
  have hlen : (bm25Search (bm25BuildIndex plog k1 b docs) query topk).length =
      min topk docs.length := by
    rw [bm25Search, List.length_map, List.enum_length, List.length_take,
      bm25Ranking_length]
  refine ⟨?_, ?_, rfl, hlen, ?_⟩
  · rw [bm25Ranking, bm25Scored_eq_spec]
    exact sortDescBy_perm _ _
  · rw [bm25Ranking]
    have hpair : (bm25Scored (bm25BuildIndex plog k1 b docs) query).Pairwise
        (fun a c => a.1 < c.1) := by
      rw [bm25Scored_eq_spec]
      exact (List.pairwise_map).mpr (pairwise_fst_lt_enum docs)
    exact sortDescBy_pairwise (fun e : ℕ × Document × ℚ => e.2.2)
      (fun a c => a.1 < c.1) _ hpair
  · intro r hr
    rw [bm25Search] at hr
    rcases List.mem_map.mp hr with ⟨p, hp, rfl⟩
    have hlt := (List.mem_enumFrom hp).2.1
    rw [List.length_take, bm25Ranking_length] at hlt
    refine ⟨rfl, Nat.le_add_left 1 p.1, ?_⟩
    show p.1 + 1 ≤ min topk docs.length
    omega

unseal Rat.add Rat.mul Rat.inv Rat.sub in
/-- Witness for C1: the top result of a BM25 search over the demonstration
corpus satisfies the per-result conclusions of `claim_C1_bm25_search`. -/
theorem claim_C1_bm25_search_witness :
    demoC1Result.method = "bm25" ∧ 1 ≤ demoC1Result.rank ∧
      demoC1Result.rank ≤ min 2 ([demoDoc1, demoDoc2, demoDoc3] : List Document).length :=
  (claim_C1_bm25_search (fun _ => 1) (3/2) (3/4) [demoDoc1, demoDoc2, demoDoc3]
    "python" 2).2.2.2.2 demoC1Result (by decide)

/-- Counterexample to C4: `BM25Searcher.build_index` applied to an empty
document sequence does not fail.  There is no `EmptyCorpusError` anywhere in
the code; the call completes normally, producing an index state with an empty
corpus and `avg_doc_length = 0`, and a subsequent `search` returns `[]`. -/
theorem claim_C4_counterexample :
    (bm25BuildIndex (fun _ => 0) (3/2) (3/4) []).documents = []
    ∧ (bm25BuildIndex (fun _ => 0) (3/2) (3/4) []).avgDocLength = 0
    ∧ bm25Search (bm25BuildIndex (fun _ => 0) (3/2) (3/4) []) "python" 10 = [] := by
  exact ⟨rfl, rfl, rfl⟩

/-- Amended C4: `build_index` on an empty corpus silently succeeds (storing
an empty document list and average length `0`), and search against the
empty-built index returns an empty result list rather than failing. -/
theorem claim_C4_empty_build_succeeds (plog : ℚ → ℚ) (k1 b : ℚ)
    (query : String) (topk : ℕ) :
    (bm25BuildIndex plog k1 b []).documents = []
    ∧ (bm25BuildIndex plog k1 b []).avgDocLength = 0
    ∧ bm25Search (bm25BuildIndex plog k1 b []) query topk = [] := by
  refine ⟨rfl, rfl, ?_⟩
  simp [bm25Search, bm25Ranking, bm25Scored, bm25BuildIndex, sortDescBy]

/-- Claim C6.  The code path of `dynamic_alpha_adjustment` agrees everywhere
with the claim's weight table (including the capitalisation adjustment); it
is a pure function of the query; a 2-token query weights bm25 and splade
strictly above dense; a 15-token query weights dense strictly above bm25; and
the two queries always receive different weights. -/
theorem claim_C6_dynamic_alpha :
    (∀ q : String, dynamicAlphaAdjustment q = dynamicAlphaSpec q)
    ∧ (∀ q : String, (pyWords q).length = 2 →
        (dynamicAlphaAdjustment q).dense < (dynamicAlphaAdjustment q).bm25
        ∧ (dynamicAlphaAdjustment q).dense < (dynamicAlphaAdjustment q).splade)
    ∧ (∀ q : String, (pyWords q).length = 15 →
        (dynamicAlphaAdjustment q).bm25 < (dynamicAlphaAdjustment q).dense)
    ∧ (∀ q q2 : String, (pyWords q).length = 2 → (pyWords q2).length = 15 →
        dynamicAlphaAdjustment q ≠ dynamicAlphaAdjustment q2) := by
  have hspec : ∀ q : String, dynamicAlphaAdjustment q = dynamicAlphaSpec q := by
    intro q
    unfold dynamicAlphaAdjustment dynamicAlphaSpec
    simp only [mul_one_div]
  have hshort : ∀ q : String, (pyWords q).length = 2 →
      dynamicAlphaAdjustment q = ⟨2/5, 1/5, 2/5⟩ ∨
        dynamicAlphaAdjustment q = ⟨2/5 + 1/10, 1/5 - 1/10, 2/5⟩ := by
    intro q h
    rw [hspec q]
    unfold dynamicAlphaSpec
    simp only [h]
    rw [if_pos (by norm_num : (2 : ℕ) ≤ 3)]
    split
    · right
      rfl
    · left
      rfl
  have hlong : ∀ q : String, (pyWords q).length = 15 →
      dynamicAlphaAdjustment q = ⟨1/5, 1/2, 3/10⟩ ∨
        dynamicAlphaAdjustment q = ⟨1/5 + 1/10, 1/2 - 1/10, 3/10⟩ := by
    intro q h
    rw [hspec q]
    unfold dynamicAlphaSpec
    simp only [h]
    rw [if_neg (by norm_num : ¬ (15 : ℕ) ≤ 3), if_pos (by norm_num : (10 : ℕ) ≤ 15)]
    split
    · right
      rfl
    · left
      rfl
  refine ⟨hspec, ?_, ?_, ?_⟩
  · intro q h
    rcases hshort q h with e | e <;> rw [e] <;> constructor <;> norm_num
  · intro q h
    rcases hlong q h with e | e <;> rw [e] <;> norm_num
  · intro q q2 h h2 heq
    rcases hshort q h with e | e <;> rcases hlong q2 h2 with e2 | e2 <;>
      rw [e, e2] at heq <;> rw [FusionWeights.mk.injEq] at heq <;> norm_num at heq

unseal Rat.add Rat.mul Rat.inv Rat.sub in
/-- Witness for C6 at the concrete queries "machine learning" (2 tokens) and
a 15-token query: the short query weights dense lowest, the long one weights
dense above bm25, and the two weight tables differ. -/
theorem claim_C6_dynamic_alpha_witness :
    ((dynamicAlphaAdjustment "machine learning").dense <
      (dynamicAlphaAdjustment "machine learning").bm25)
    ∧ (dynamicAlphaAdjustment
        "how do i configure a web server to host several python applications at the time").bm25 <
      (dynamicAlphaAdjustment
        "how do i configure a web server to host several python applications at the time").dense
    ∧ dynamicAlphaAdjustment "machine learning" ≠
      dynamicAlphaAdjustment
        "how do i configure a web server to host several python applications at the time" :=
  ⟨(claim_C6_dynamic_alpha.2.1 "machine learning" (by decide)).1,
   claim_C6_dynamic_alpha.2.2.1
     "how do i configure a web server to host several python applications at the time"
     (by decide),
   claim_C6_dynamic_alpha.2.2.2 "machine learning"
     "how do i configure a web server to host several python applications at the time"
     (by decide) (by decide)⟩

unseal Rat.add Rat.mul Rat.inv Rat.sub in
/-- Claim C10: on the empty query the short-query branch fires (0 ≤ 3) and the
capitalised-token adjustment fires vacuously (0 ≥ 0.5 * 0), so
`dynamic_alpha_adjustment` returns `{bm25: 0.5, dense: 0.1, splade: 0.4}`. -/
theorem claim_C10_empty_query_weights :
    dynamicAlphaAdjustment "" = { bm25 := 1/2, dense := 1/10, splade := 2/5 } := by
  decide

/-- Claim C7.  `cosine_similarity` returns `0` on empty vectors, mismatched
lengths and zero norms, and otherwise returns `dot(q,d) / (||q|| * ||d||)`; a
document with no embedding scores `0`; and every result of
`DenseSearcher.search` carries the `denseScore` of some corpus document (so a
single malformed or missing embedding only zeroes that document, never aborts
the search, which is total by construction). -/
theorem claim_C7_dense_cosine_total :
    (∀ (psqrt : ℚ → ℚ) (v1 v2 : List ℚ),
        v1 = [] ∨ v2 = [] ∨ v1.length ≠ v2.length → cosineSimilarity psqrt v1 v2 = 0)
    ∧ (∀ (psqrt : ℚ → ℚ) (v1 v2 : List ℚ),
        psqrt ((v1.map (fun a => a * a)).sum) = 0 ∨
          psqrt ((v2.map (fun a => a * a)).sum) = 0 →
        cosineSimilarity psqrt v1 v2 = 0)
    ∧ (∀ (psqrt : ℚ → ℚ) (v1 v2 : List ℚ),
        v1 ≠ [] → v2 ≠ [] → v1.length = v2.length →
        psqrt ((v1.map (fun a => a * a)).sum) ≠ 0 →
        psqrt ((v2.map (fun a => a * a)).sum) ≠ 0 →
        cosineSimilarity psqrt v1 v2 =
          ((v1.zip v2).map (fun p => p.1 * p.2)).sum /
            (psqrt ((v1.map (fun a => a * a)).sum) *
              psqrt ((v2.map (fun a => a * a)).sum)))
    ∧ (∀ (psqrt : ℚ → ℚ) (qe : List ℚ) (d : Document), d.embedding = none →
        denseScore psqrt qe d = 0)
    ∧ (∀ (psqrt : ℚ → ℚ) (docs : List Document) (query : String) (topk : ℕ),
        ∀ r ∈ denseSearch psqrt docs query topk,
          ∃ d ∈ docs, r.doc_id = d.doc_id ∧
            r.score = denseScore psqrt (embedQuery query) d ∧ r.method = "dense") := by
  refine ⟨?_, ?_, ?_, ?_, ?_⟩
  · intro psqrt v1 v2 h
    rcases h with h | h | h <;> simp [cosineSimilarity, h]
  · intro psqrt v1 v2 h
    unfold cosineSimilarity
    split
    · rfl
    · exact if_pos h
  · intro psqrt v1 v2 h1 h2 hlen hn1 hn2
    unfold cosineSimilarity
    rw [if_neg (by simp [List.isEmpty_iff, h1, h2, hlen])]
    exact if_neg (not_or.mpr ⟨hn1, hn2⟩)
  · intro psqrt qe d h
    simp [denseScore, h]
  · intro psqrt docs query topk r hr
    unfold denseSearch at hr
    rcases List.mem_map.mp hr with ⟨p, hp, rfl⟩
    have hmem : p.2 ∈ sortDescBy (fun q : Document × ℚ => q.2)
        (docs.map (fun d => (d, denseScore psqrt (embedQuery query) d))) :=
      List.mem_of_mem_take (List.snd_mem_of_mem_enum hp)
    have hmem2 := (sortDescBy_perm _ _).mem_iff.mp hmem
    rcases List.mem_map.mp hmem2 with ⟨d, hd, hpd⟩
    exact ⟨d, hd, by rw [← hpd], by rw [← hpd], rfl⟩

unseal Rat.add Rat.mul Rat.inv Rat.sub in
/-- Witness for C7 at concrete inputs: a length-mismatched pair scores `0`, a
well-formed pair scores `dot/(||q||*||d||)`, a document without an embedding
scores `0`, and the single result of a dense search over the demonstration
corpus carries a `denseScore`. -/
theorem claim_C7_dense_cosine_total_witness :
    cosineSimilarity (fun x => x) [1] [1, 2] = 0
    ∧ cosineSimilarity (fun x => x) [2] [3] =
        (([(2 : ℚ)].zip [(3 : ℚ)]).map (fun p => p.1 * p.2)).sum /
          ((([(2 : ℚ)].map (fun a => a * a)).sum) * (([(3 : ℚ)].map (fun a => a * a)).sum))
    ∧ denseScore (fun x => x) (embedQuery "python") demoDoc1 = 0
    ∧ ∃ d ∈ [demoDoc1], demoC7Result.doc_id = d.doc_id ∧
        demoC7Result.score = denseScore (fun x => x) (embedQuery "python") d ∧
        demoC7Result.method = "dense" :=
  ⟨claim_C7_dense_cosine_total.1 (fun x => x) [1] [1, 2] (Or.inr (Or.inr (by decide))),
   claim_C7_dense_cosine_total.2.2.1 (fun x => x) [2] [3] (by decide) (by decide)
     (by decide) (by decide) (by decide),
   claim_C7_dense_cosine_total.2.2.2.1 (fun x => x) (embedQuery "python") demoDoc1 rfl,
   claim_C7_dense_cosine_total.2.2.2.2 (fun x => x) [demoDoc1] "python" 1 demoC7Result
     (by decide)⟩

unseal Rat.add Rat.mul Rat.inv Rat.sub in
/-- Counterexample to C9: `SPLADESearcher.build_index` writes the
`sparse_vector` field of a submitted document that lacks one (the in-place
mutation `doc.sparse_vector = self.encode_to_sparse_vector(doc.content)`), so
documents are not immutable under indexing. -/
theorem claim_C9_counterexample :
    (spladeBuildIndex (fun _ => 0) [demoDoc1]).documents ≠ [demoDoc1]
    ∧ demoDoc1.sparse_vector = none
    ∧ ((spladeBuildIndex (fun _ => 0) [demoDoc1]).documents.map Document.sparse_vector)
        = [some [(2, 0), (1, 0), (0, 0)]] := by
  refine ⟨by decide, rfl, by decide⟩

/-- Amended C9: `BM25Searcher.build_index` and `DenseSearcher.build_index`
leave every submitted document unchanged; `SPLADESearcher.build_index` leaves
`doc_id`, `content`, `metadata` and `embedding` unchanged and leaves documents
that already carry a `sparse_vector` entirely unchanged, but writes
`sparse_vector` (the encoding of the document's content) on every document
lacking one. -/
theorem claim_C9_index_build_frame (plog : ℚ → ℚ) (k1 b : ℚ) (docs : List Document) :
    (bm25BuildIndex plog k1 b docs).documents = docs
    ∧ denseBuildIndex docs = docs
    ∧ List.Forall₂ (fun d d2 =>
        d2.doc_id = d.doc_id ∧ d2.content = d.content ∧ d2.metadata = d.metadata
        ∧ d2.embedding = d.embedding
        ∧ (d.sparse_vector ≠ none → d2 = d)
        ∧ (d.sparse_vector = none →
            d2.sparse_vector = some (spladeEncode plog (buildVocabList docs) d.content)))
      docs (spladeBuildIndex plog docs).documents := by
  refine ⟨rfl, rfl, ?_⟩
  have hrepr : (spladeBuildIndex plog docs).documents =
      docs.map (fun d =>
        if d.sparse_vector = none then
          { d with sparse_vector := some (spladeEncode plog (buildVocabList docs) d.content) }
        else d) := rfl
  rw [hrepr, List.forall₂_map_right_iff]
  refine List.forall₂_same.mpr ?_
  intro d _
  by_cases h : d.sparse_vector = none
  · rw [if_pos h]
    exact ⟨rfl, rfl, rfl, rfl, fun hn => absurd h hn, fun _ => rfl⟩
  · rw [if_neg h]
    exact ⟨rfl, rfl, rfl, rfl, fun _ => rfl, fun hn => absurd hn h⟩

/-- Witness for the amended C9 at the demonstration corpus: the BM25 build
stores the submitted list unchanged. -/
theorem claim_C9_index_build_frame_witness :
    (bm25BuildIndex (fun _ => 0) (3/2) (3/4) [demoDoc1, demoDoc2]).documents
      = [demoDoc1, demoDoc2] :=
  (claim_C9_index_build_frame (fun _ => 0) (3/2) (3/4) [demoDoc1, demoDoc2]).1

theorem mem_uniqFirstAux (a : String) :
    ∀ (seen l : List String), a ∈ uniqFirstAux seen l ↔ (a ∈ l ∧ a ∉ seen) := by
  intro seen l
  induction l generalizing seen with
  | nil => simp [uniqFirstAux]
  | cons t ts ih =>
    simp only [uniqFirstAux]
    by_cases h : t ∈ seen
    · rw [if_pos h, ih]
      constructor
      · rintro ⟨h1, h2⟩
        exact ⟨List.mem_cons_of_mem _ h1, h2⟩
      · rintro ⟨h1, h2⟩
        rcases List.mem_cons.mp h1 with rfl | h1
        · exact absurd h h2
        · exact ⟨h1, h2⟩
    · rw [if_neg h]
      constructor
      · intro hm
        rcases List.mem_cons.mp hm with rfl | hm
        · exact ⟨List.mem_cons_self _ _, h⟩
        · rcases (ih _).mp hm with ⟨h1, h2⟩
          exact ⟨List.mem_cons_of_mem _ h1, fun hs => h2 (List.mem_cons_of_mem _ hs)⟩
      · rintro ⟨h1, h2⟩
        rcases List.mem_cons.mp h1 with rfl | h1
        · exact List.mem_cons_self _ _
        · by_cases hat : a = t
          · subst hat
            exact List.mem_cons_self _ _
          · exact List.mem_cons_of_mem _ ((ih _).mpr
              ⟨h1, fun hs => (List.mem_cons.mp hs).elim hat h2⟩)

theorem mem_uniqFirst (a : String) (l : List String) :
    a ∈ uniqFirst l ↔ a ∈ l := by
  rw [uniqFirst, mem_uniqFirstAux]
  simp

theorem nodup_uniqFirstAux : ∀ (seen l : List String), (uniqFirstAux seen l).Nodup := by
  intro seen l
  induction l generalizing seen with
  | nil => exact List.Pairwise.nil
  | cons t ts ih =>
    simp only [uniqFirstAux]
    split
    · exact ih _
    · refine List.nodup_cons.mpr ⟨?_, ih _⟩
      intro hmem
      exact ((mem_uniqFirstAux t _ _).mp hmem).2 (List.mem_cons_self t _)

theorem nodup_uniqFirst (l : List String) : (uniqFirst l).Nodup :=
  nodup_uniqFirstAux [] l

theorem uniqFirstAux_eq_self : ∀ (seen l : List String), l.Nodup →
    (∀ a ∈ l, a ∉ seen) → uniqFirstAux seen l = l := by
  intro seen l
  induction l generalizing seen with
  | nil => intro _ _; rfl
  | cons t ts ih =>
    intro hnd hdis
    rcases List.nodup_cons.mp hnd with ⟨ht, hts⟩
    simp only [uniqFirstAux]
    rw [if_neg (hdis t (List.mem_cons_self t ts))]
    rw [ih (t :: seen) hts]
    intro a ha hseen
    rcases List.mem_cons.mp hseen with rfl | hseen
    · exact ht ha
    · exact hdis a (List.mem_cons_of_mem t ha) hseen

theorem uniqFirst_eq_self (l : List String) (h : l.Nodup) : uniqFirst l = l :=
  uniqFirstAux_eq_self [] l h (by simp)

theorem pairwise_true {α : Type} : ∀ l : List α, l.Pairwise (fun _ _ => True)
  | [] => List.Pairwise.nil
  | _ :: xs => List.Pairwise.cons (fun _ _ => trivial) (pairwise_true xs)

unseal Rat.add Rat.mul Rat.inv Rat.sub in
/-- On a result list whose doc ids are distinct, summing `1/(k+rank)` over the
occurrences of `id` amounts to looking `id` up with `find?`. -/
theorem filter_score_eq_find (k : ℕ) (id : String) :
    ∀ l : List SearchResult, (l.map (fun o => o.doc_id)).Nodup →
    ((l.filter (fun o => o.doc_id = id)).map
      (fun o => 1 / ((k : ℚ) + (o.rank : ℚ)))).sum =
      (match l.find? (fun o => o.doc_id = id) with
       | some o => 1 / ((k : ℚ) + (o.rank : ℚ))
       | none => 0) := by
  intro l
  induction l with
  | nil => intro _; rfl
  | cons o l2 ih =>
    intro hnd
    rw [List.map_cons, List.nodup_cons] at hnd
    rcases hnd with ⟨ho, hl2⟩
    by_cases h : o.doc_id = id
    · rw [List.filter_cons_of_pos (by simp [h]), List.find?_cons_of_pos _ (by simp [h])]
      have hnil : l2.filter (fun o2 => o2.doc_id = id) = [] := by
        rw [List.filter_eq_nil_iff]
        intro o2 ho2 hid
        refine ho ?_
        rw [h]
        simp only [decide_eq_true_eq] at hid
        rw [← hid]
        exact List.mem_map_of_mem _ ho2
      rw [hnil]
      simp
    · rw [List.filter_cons_of_neg (by simp [h]), List.find?_cons_of_neg _ (by simp [h])]
      exact ih hl2

/-- With per-list distinct doc ids, the accumulated RRF score of the code
equals the claim's per-method sum. -/
theorem rrfScore_eq_spec (k : ℕ) (id : String) :
    ∀ ls : List (List SearchResult),
    (∀ l ∈ ls, (l.map (fun o => o.doc_id)).Nodup) →
    rrfScore k ls.flatten id = rrfSpecScore k ls id := by
  intro ls
  induction ls with
  | nil => intro _; rfl
  | cons l rest ih =>
    intro h
    unfold rrfScore rrfSpecScore
    rw [List.flatten_cons, List.filter_append, List.map_append, List.sum_append,
      List.map_cons, List.sum_cons]
    rw [filter_score_eq_find k id l (h l (List.mem_cons_self l rest))]
    have := ih (fun l2 hl2 => h l2 (List.mem_cons_of_mem l hl2))
    unfold rrfScore rrfSpecScore at this
    rw [this]

theorem rrfSorted_mem (k : ℕ) (lists : List (List SearchResult)) :
    ∀ p ∈ rrfSorted k lists,
      p.2 = rrfScore k lists.flatten p.1 ∧ p.1 ∈ rrfIds lists := by
  intro p hp
  have hmem := (sortDescBy_perm _ _).mem_iff.mp hp
  rcases List.mem_map.mp hmem with ⟨id, hid, heq⟩
  rw [← heq]
  exact ⟨rfl, hid⟩

theorem rrfSorted_pairwise (k : ℕ) (lists : List (List SearchResult)) :
    (rrfSorted k lists).Pairwise (fun a b => b.2 ≤ a.2) := by
  have h := sortDescBy_pairwise (fun p : String × ℚ => p.2) (fun _ _ => True) _
    (pairwise_true ((rrfIds lists).map (fun id => (id, rrfScore k lists.flatten id))))
  exact h.imp (fun h2 => h2.1)

theorem rrfSorted_perm (k : ℕ) (lists : List (List SearchResult)) :
    List.Perm (rrfSorted k lists)
      ((rrfIds lists).map (fun id => (id, rrfScore k lists.flatten id))) :=
  sortDescBy_perm _ _

theorem lastOcc_spec (occs : List SearchResult) (id : String)
    (h : ∃ o ∈ occs, o.doc_id = id) :
    ∃ o, lastOcc occs id = some o ∧ o.doc_id = id ∧ o ∈ occs := by
  unfold lastOcc
  have hne : occs.filter (fun o => o.doc_id = id) ≠ [] := by
    rcases h with ⟨o, ho, hid⟩
    intro hnil
    have hmem : o ∈ occs.filter (fun o => o.doc_id = id) :=
      List.mem_filter.mpr ⟨ho, by simp [hid]⟩
    rw [hnil] at hmem
    exact absurd hmem (List.not_mem_nil o)
  refine ⟨(occs.filter (fun o => o.doc_id = id)).getLast hne,
    List.getLast?_eq_getLast _ hne, ?_, ?_⟩
  · have hmem := List.getLast_mem hne
    have := List.of_mem_filter hmem
    simpa using this
  · exact List.mem_of_mem_filter (List.getLast_mem hne)

/-- Every fused result carries the accumulated RRF score of its own document
id, the method tag "hybrid", and an id that occurs in the inputs. -/
theorem rrfFused_entry (k : ℕ) (lists : List (List SearchResult)) :
    ∀ r ∈ rrfFused k lists,
      r.score = rrfScore k lists.flatten r.doc_id ∧ r.method = "hybrid"
      ∧ r.doc_id ∈ rrfIds lists := by
  intro r hr
  unfold rrfFused at hr
  rcases List.mem_map.mp hr with ⟨p, hp, rfl⟩
  have hps : p.2 ∈ rrfSorted k lists := List.snd_mem_of_mem_enum hp
  rcases rrfSorted_mem k lists p.2 hps with ⟨hscore, hid⟩
  have hex : ∃ o ∈ lists.flatten, o.doc_id = p.2.1 := by
    have hmem := (mem_uniqFirst _ _).mp hid
    rcases List.mem_map.mp hmem with ⟨o, ho, hoid⟩
    exact ⟨o, ho, hoid⟩
  rcases lastOcc_spec _ _ hex with ⟨o, hl, hoid, _⟩
  have hdoc : ({ (lastOcc lists.flatten p.2.1).getD dummyResult with
      score := p.2.2, rank := p.1 + 1, method := "hybrid" } : SearchResult).doc_id
      = p.2.1 := by
    show ((lastOcc lists.flatten p.2.1).getD dummyResult).doc_id = p.2.1
    rw [hl]
    exact hoid
  refine ⟨?_, rfl, ?_⟩
  · show p.2.2 = rrfScore k lists.flatten _
    rw [hdoc, hscore]
  · rw [hdoc]
    exact hid

/-- The fused list is sorted by score descending. -/
theorem rrfFused_pairwise (k : ℕ) (lists : List (List SearchResult)) :
    (rrfFused k lists).Pairwise (fun a b => b.score ≤ a.score) := by
  unfold rrfFused
  rw [List.pairwise_map]
  have henum : (rrfSorted k lists).enum.Pairwise (fun a b => b.2.2 ≤ a.2.2) := by
    have hmap : ((rrfSorted k lists).enum.map Prod.snd).Pairwise
        (fun a b => b.2 ≤ a.2) := by
      rw [List.enum_map_snd]
      exact rrfSorted_pairwise k lists
    rw [List.pairwise_map] at hmap
    exact hmap
  exact henum.imp (fun h => h)

/-- The fused list reassigns 1-based ranks in output order. -/
theorem rrfFused_rank (k : ℕ) (lists : List (List SearchResult)) :
    ∀ j (hj : j < (rrfFused k lists).length),
      ((rrfFused k lists).get ⟨j, hj⟩).rank = j + 1 := by
  intro j hj
  unfold rrfFused at hj ⊢
  simp [List.get_eq_getElem, List.getElem_map, List.getElem_enum]

/-- The document ids of the fused list, in output order, are those of the
`sorted_docs` list. -/
theorem rrfFused_ids_eq (k : ℕ) (lists : List (List SearchResult)) :
    (rrfFused k lists).map (fun r => r.doc_id)
      = (rrfSorted k lists).map (fun p => p.1) := by
  unfold rrfFused
  rw [List.map_map]
  have hcong : ((rrfSorted k lists).enum).map
      ((fun r : SearchResult => r.doc_id) ∘ (fun p =>
        { (lastOcc lists.flatten p.2.1).getD dummyResult with
            score := p.2.2, rank := p.1 + 1, method := "hybrid" }))
      = ((rrfSorted k lists).enum).map (fun p => p.2.1) := by
    refine List.map_congr_left ?_
    intro p hp
    have hps : p.2 ∈ rrfSorted k lists := List.snd_mem_of_mem_enum hp
    rcases rrfSorted_mem k lists p.2 hps with ⟨_, hid⟩
    have hex : ∃ o ∈ lists.flatten, o.doc_id = p.2.1 := by
      have hmem := (mem_uniqFirst _ _).mp hid
      rcases List.mem_map.mp hmem with ⟨o, ho, hoid⟩
      exact ⟨o, ho, hoid⟩
    rcases lastOcc_spec _ _ hex with ⟨o, hl, hoid, _⟩
    show ((lastOcc lists.flatten p.2.1).getD dummyResult).doc_id = p.2.1
    rw [hl]
    exact hoid
  rw [hcong]
  have h2 : ((rrfSorted k lists).enum).map (fun p => p.2.1)
      = ((rrfSorted k lists).enum.map Prod.snd).map (fun p => p.1) := by
    rw [List.map_map]
    rfl
  rw [h2, List.enum_map_snd]

/-- The fused list enumerates each input document id exactly once. -/
theorem rrfFused_ids_perm (k : ℕ) (lists : List (List SearchResult)) :
    List.Perm ((rrfFused k lists).map (fun r => r.doc_id)) (rrfIds lists) := by
  rw [rrfFused_ids_eq]
  have h := (rrfSorted_perm k lists).map (fun p : String × ℚ => p.1)
  rw [List.map_map] at h
  have h3 : ((rrfIds lists).map
      ((fun p : String × ℚ => p.1) ∘ fun id => (id, rrfScore k lists.flatten id)))
      = rrfIds lists :=
    (List.map_congr_left (fun a _ => rfl)).trans (List.map_id _)
  rw [h3] at h
  exact h

/-- Claim C2.  With three per-method result lists (each listing a document at
most once), every fused result's score is the claim's sum over the methods
that ranked the document of `1/(60 + rank)`, absent methods contributing `0`;
the fused list is sorted by this score descending with 1-based reassigned
ranks, tagged `method="hybrid"`, and enumerates each appearing id once; and a
document ranked 1st by all three methods scores `3 * (1/61)` and is placed
strictly above a document at rank 1 in only one method's list, which scores
`1/61`. -/
theorem claim_C2_rrf_fusion (l1 l2 l3 : List SearchResult)
    (h1 : (l1.map (fun o => o.doc_id)).Nodup)
    (h2 : (l2.map (fun o => o.doc_id)).Nodup)
    (h3 : (l3.map (fun o => o.doc_id)).Nodup) :
    (∀ r ∈ rrfFused 60 [l1, l2, l3],
        r.score = rrfSpecScore 60 [l1, l2, l3] r.doc_id ∧ r.method = "hybrid")
    ∧ (rrfFused 60 [l1, l2, l3]).Pairwise (fun a b => b.score ≤ a.score)
    ∧ (∀ j (hj : j < (rrfFused 60 [l1, l2, l3]).length),
        ((rrfFused 60 [l1, l2, l3]).get ⟨j, hj⟩).rank = j + 1)
    ∧ List.Perm ((rrfFused 60 [l1, l2, l3]).map (fun r => r.doc_id))
        (rrfIds [l1, l2, l3])
    ∧ (∀ d e : String, d ≠ e →
        (∀ l ∈ [l1, l2, l3], ∃ o, l.find? (fun o => o.doc_id = d) = some o ∧ o.rank = 1) →
        (∃ o, l1.find? (fun o => o.doc_id = e) = some o ∧ o.rank = 1) →
        l2.find? (fun o => o.doc_id = e) = none →
        l3.find? (fun o => o.doc_id = e) = none →
        rrfSpecScore 60 [l1, l2, l3] d = 3 * (1 / 61)
        ∧ rrfSpecScore 60 [l1, l2, l3] e = 1 / 61
        ∧ (∀ i j (hi : i < (rrfFused 60 [l1, l2, l3]).length)
            (hj : j < (rrfFused 60 [l1, l2, l3]).length),
            ((rrfFused 60 [l1, l2, l3]).get ⟨i, hi⟩).doc_id = d →
            ((rrfFused 60 [l1, l2, l3]).get ⟨j, hj⟩).doc_id = e → i < j)) := by
  have hnds : ∀ l ∈ [l1, l2, l3], (l.map (fun o => o.doc_id)).Nodup := by
    intro l hl
    rcases List.mem_cons.mp hl with rfl | hl
    · exact h1
    rcases List.mem_cons.mp hl with rfl | hl
    · exact h2
    rcases List.mem_cons.mp hl with rfl | hl
    · exact h3
    · exact absurd hl (List.not_mem_nil l)
  have hentry : ∀ r ∈ rrfFused 60 [l1, l2, l3],
      r.score = rrfSpecScore 60 [l1, l2, l3] r.doc_id ∧ r.method = "hybrid" := by
    intro r hr
    rcases rrfFused_entry 60 [l1, l2, l3] r hr with ⟨hs, hm, _⟩
    exact ⟨hs.trans (rrfScore_eq_spec 60 r.doc_id [l1, l2, l3] hnds), hm⟩
  refine ⟨hentry, rrfFused_pairwise 60 [l1, l2, l3], rrfFused_rank 60 [l1, l2, l3],
    rrfFused_ids_perm 60 [l1, l2, l3], ?_⟩
  intro d e hde hd he1 he2 he3
  rcases hd l1 (by simp) with ⟨o1, hf1, hr1⟩
  rcases hd l2 (by simp) with ⟨o2, hf2, hr2⟩
  rcases hd l3 (by simp) with ⟨o3, hf3, hr3⟩
  rcases he1 with ⟨oe, hfe, hre⟩
  have hsd : rrfSpecScore 60 [l1, l2, l3] d = 3 * (1 / 61) := by
    unfold rrfSpecScore
    rw [List.map_cons, List.map_cons, List.map_cons, List.map_nil]
    rw [hf1, hf2, hf3]
    simp only [hr1, hr2, hr3]
    norm_num
  have hse : rrfSpecScore 60 [l1, l2, l3] e = 1 / 61 := by
    unfold rrfSpecScore
    rw [List.map_cons, List.map_cons, List.map_cons, List.map_nil]
    rw [hfe, he2, he3]
    simp only [hre]
    norm_num
  refine ⟨hsd, hse, ?_⟩
  intro i j hi hj hdi hdj
  have hgi := List.get_mem (rrfFused 60 [l1, l2, l3]) i hi
  have hgj := List.get_mem (rrfFused 60 [l1, l2, l3]) j hj
  have hsi : ((rrfFused 60 [l1, l2, l3]).get ⟨i, hi⟩).score = 3 * (1 / 61) := by
    rw [(hentry _ hgi).1, hdi, hsd]
  have hsj : ((rrfFused 60 [l1, l2, l3]).get ⟨j, hj⟩).score = 1 / 61 := by
    rw [(hentry _ hgj).1, hdj, hse]
  rcases Nat.lt_trichotomy i j with h | h | h
  · exact h
  · exfalso
    apply hde
    rw [← hdi, ← hdj]
    simp [h]
  · exfalso
    have := (List.pairwise_iff_get.mp (rrfFused_pairwise 60 [l1, l2, l3]))
      ⟨j, hj⟩ ⟨i, hi⟩ h
    rw [hsi, hsj] at this
    norm_num at this

unseal Rat.add Rat.mul Rat.inv Rat.sub in
/-- Witness for C2 at a concrete triple of lists: the document ranked 1st by
all three methods scores `3 * (1/61)`, the document at rank 1 in only the
first list scores `1/61`, and the former is placed strictly above the
latter. -/
theorem claim_C2_rrf_fusion_witness :
    rrfSpecScore 60 [rrfL1, rrfL2, rrfL3] "d" = 3 * (1 / 61)
    ∧ rrfSpecScore 60 [rrfL1, rrfL2, rrfL3] "e" = 1 / 61
    ∧ (0 : ℕ) < 1 := by
  have C := claim_C2_rrf_fusion rrfL1 rrfL2 rrfL3 (by decide) (by decide) (by decide)
  have hd : ∀ l ∈ [rrfL1, rrfL2, rrfL3],
      ∃ o, l.find? (fun o => o.doc_id = "d") = some o ∧ o.rank = 1 := by
    intro l hl
    rcases List.mem_cons.mp hl with rfl | hl
    · exact ⟨⟨"d", 0, 1, "", [], "bm25"⟩, by decide, rfl⟩
    rcases List.mem_cons.mp hl with rfl | hl
    · exact ⟨⟨"d", 0, 1, "", [], "dense"⟩, by decide, rfl⟩
    rcases List.mem_cons.mp hl with rfl | hl
    · exact ⟨⟨"d", 0, 1, "", [], "splade"⟩, by decide, rfl⟩
    · exact absurd hl (List.not_mem_nil l)
  have he1 : ∃ o, rrfL1.find? (fun o => o.doc_id = "e") = some o ∧ o.rank = 1 :=
    ⟨⟨"e", 0, 1, "", [], "bm25"⟩, by decide, rfl⟩
  have E := C.2.2.2.2 "d" "e" (by decide) hd he1 (by decide) (by decide)
  exact ⟨E.1, E.2.1, E.2.2 0 1 (by decide) (by decide) (by decide) (by decide)⟩

theorem rrfMutOne_doc_id (s : List (String × ℚ)) (o : SearchResult) :
    (rrfMutOne s o).doc_id = o.doc_id := by
  unfold rrfMutOne
  split <;> rfl

theorem rrfMutate_doc_ids (k : ℕ) (lists : List (List SearchResult)) :
    (rrfMutate k lists).map (List.map (fun o => o.doc_id))
      = lists.map (List.map (fun o => o.doc_id)) := by
  unfold rrfMutate
  apply List.ext_getElem
  · simp
  intro i hi1 hi2
  have hi : i < lists.length := by simpa using hi2
  simp only [List.getElem_map, List.getElem_enum]
  rw [List.map_map]
  have hcong : ∀ w ∈ (lists[i]).enum,
      ((fun o : SearchResult => o.doc_id) ∘ (fun w : ℕ × SearchResult =>
        if occAfter lists i w.1 w.2.doc_id then w.2
        else rrfMutOne (rrfSorted k lists) w.2)) w = w.2.doc_id := by
    intro w _
    simp only [Function.comp]
    split
    · rfl
    · exact rrfMutOne_doc_id _ _
  rw [List.map_congr_left hcong]
  have h2 : (lists[i]).enum.map (fun w => w.2.doc_id)
      = ((lists[i]).enum.map Prod.snd).map (fun o => o.doc_id) := by
    rw [List.map_map]
    rfl
  rw [h2, List.enum_map_snd]

theorem rrfMutate_flatten_doc_ids (k : ℕ) (lists : List (List SearchResult)) :
    (rrfMutate k lists).flatten.map (fun o => o.doc_id)
      = lists.flatten.map (fun o => o.doc_id) := by
  rw [List.map_flatten, List.map_flatten, rrfMutate_doc_ids]

theorem rrfIds_mutate (k : ℕ) (lists : List (List SearchResult)) :
    rrfIds (rrfMutate k lists) = rrfIds lists := by
  unfold rrfIds
  rw [rrfMutate_flatten_doc_ids]

theorem rrfSorted_fst_perm (k : ℕ) (lists : List (List SearchResult)) :
    List.Perm ((rrfSorted k lists).map (fun p => p.1)) (rrfIds lists) := by
  have h := (rrfSorted_perm k lists).map (fun p : String × ℚ => p.1)
  rw [List.map_map] at h
  have h3 : ((rrfIds lists).map
      ((fun p : String × ℚ => p.1) ∘ fun id => (id, rrfScore k lists.flatten id)))
      = rrfIds lists :=
    (List.map_congr_left (fun a _ => rfl)).trans (List.map_id _)
  rw [h3] at h
  exact h

unseal Rat.add Rat.mul Rat.inv Rat.sub in
/-- On a globally-nodup occurrence list, filtering for an occurrence's id
returns exactly that occurrence. -/
theorem filter_eq_single_of_nodup :
    ∀ occs : List SearchResult, ((occs.map (fun o => o.doc_id)).Nodup) →
    ∀ o ∈ occs, occs.filter (fun x => x.doc_id = o.doc_id) = [o] := by
  intro occs
  induction occs with
  | nil =>
    intro _ o ho
    exact absurd ho (List.not_mem_nil o)
  | cons a rest ih =>
    intro hnd o ho
    rw [List.map_cons, List.nodup_cons] at hnd
    rcases hnd with ⟨ha, hrest⟩
    rcases List.mem_cons.mp ho with rfl | ho2
    · rw [List.filter_cons_of_pos (by simp)]
      have hnil : rest.filter (fun x => x.doc_id = o.doc_id) = [] := by
        rw [List.filter_eq_nil_iff]
        intro x hx hxid
        simp only [decide_eq_true_eq] at hxid
        exact ha (hxid ▸ List.mem_map_of_mem _ hx)
      rw [hnil]
    · have hne : ¬ (a.doc_id = o.doc_id) := by
        intro he
        exact ha (he ▸ List.mem_map_of_mem _ ho2)
      rw [List.filter_cons_of_neg (by simp [hne])]
      exact ih hrest o ho2

unseal Rat.add Rat.mul Rat.inv Rat.sub in
/-- On a list of pairs with distinct first components, searching the
enumerated list for the first component of entry `j` finds exactly position
`j`. -/
theorem find_enumFrom_fst :
    ∀ (l : List (String × ℚ)) (n j : ℕ) (hj : j < l.length),
    ((l.map (fun p => p.1)).Nodup) →
    (l.enumFrom n).find? (fun p => p.2.1 = (l.get ⟨j, hj⟩).1)
      = some (n + j, l.get ⟨j, hj⟩) := by
  intro l
  induction l with
  | nil =>
    intro n j hj
    exact absurd hj (by simp)
  | cons x xs ih =>
    intro n j hj hnd
    rw [List.map_cons, List.nodup_cons] at hnd
    rcases hnd with ⟨hx, hxs⟩
    match j with
    | 0 =>
      simp only [List.enumFrom, List.get]
      rw [List.find?_cons_of_pos _ (by simp)]
      rfl
    | jj + 1 =>
      have hj2 : jj < xs.length := by
        have h2 : jj + 1 < xs.length + 1 := by simpa using hj
        omega
      have hget : ((x :: xs).get ⟨jj + 1, hj⟩) = xs.get ⟨jj, hj2⟩ := rfl
      rw [hget]
      simp only [List.enumFrom]
      rw [List.find?_cons_of_neg _ (by
        simp only [decide_eq_true_eq]
        intro he
        exact hx (he ▸ List.mem_map_of_mem _ (xs.get_mem jj hj2)))]
      rw [ih (n + 1) jj hj2 hxs]
      have harith : n + 1 + jj = n + (jj + 1) := by omega
      rw [harith]

theorem find_enum_fst (l : List (String × ℚ)) (j : ℕ) (hj : j < l.length)
    (hnd : (l.map (fun p => p.1)).Nodup) :
    l.enum.find? (fun p => p.2.1 = (l.get ⟨j, hj⟩).1) = some (j, l.get ⟨j, hj⟩) := by
  have h := find_enumFrom_fst l 0 j hj hnd
  rw [Nat.zero_add] at h
  exact h

unseal Rat.add Rat.mul Rat.inv Rat.sub in
/-- When every document id occurs at most once across the input lists, no
occurrence has a later occurrence of the same id, so the fusion loop mutates
every occurrence. -/
theorem occAfter_false_of_nodup (lists : List (List SearchResult))
    (hnd : (lists.flatten.map (fun o => o.doc_id)).Nodup)
    (i p : ℕ) (hi : i < lists.length) (hp : p < (lists[i]).length) :
    occAfter lists i p ((lists[i][p]).doc_id) = false := by
  set id := (lists[i][p]).doc_id with hid
  have hcount : ((lists.map (fun l => (l.map (fun o => o.doc_id)).count id)).sum) ≤ 1 := by
    have h1 := List.nodup_iff_count_le_one.mp hnd id
    rw [List.map_flatten, List.count_flatten, List.map_map] at h1
    exact h1
  have hmemi : id ∈ (lists[i]).map (fun o => o.doc_id) :=
    List.mem_map_of_mem _ (List.getElem_mem _)
  have hfi : 1 ≤ ((lists[i]).map (fun o => o.doc_id)).count id :=
    List.count_pos_iff.mpr hmemi
  unfold occAfter
  rw [Bool.or_eq_false_iff]
  constructor
  · rw [List.any_eq_false]
    intro o2 ho2
    simp only [decide_eq_true_eq]
    intro ho2id
    have hgetd : lists.getD i [] = lists[i] := by
      simp [List.getD_eq_getElem?_getD, List.getElem?_eq_getElem hi]
    rw [hgetd] at ho2
    have hca : ((lists[i]).map (fun o => o.doc_id)).count id =
        (((lists[i]).take (p+1)).map (fun o => o.doc_id)).count id +
        (((lists[i]).drop (p+1)).map (fun o => o.doc_id)).count id := by
      conv_lhs => rw [← List.take_append_drop (p+1) (lists[i])]
      rw [List.map_append, List.count_append]
    have hlen : p < ((lists[i]).take (p+1)).length := by
      rw [List.length_take]
      omega
    have hc1 : 1 ≤ (((lists[i]).take (p+1)).map (fun o => o.doc_id)).count id := by
      refine List.count_pos_iff.mpr (List.mem_map.mpr
        ⟨(lists[i].take (p+1))[p], List.getElem_mem _, ?_⟩)
      rw [List.getElem_take]
    have hc2 : 1 ≤ (((lists[i]).drop (p+1)).map (fun o => o.doc_id)).count id :=
      List.count_pos_iff.mpr (List.mem_map.mpr ⟨o2, ho2, ho2id⟩)
    have hle : ((lists[i]).map (fun o => o.doc_id)).count id ≤
        (lists.map (fun l => (l.map (fun o => o.doc_id)).count id)).sum :=
      List.single_le_sum (fun x _ => Nat.zero_le x) _
        (List.mem_map_of_mem _ (List.getElem_mem _))
    omega
  · rw [List.any_eq_false]
    intro l2 hl2
    intro hany
    rcases List.any_eq_true.mp hany with ⟨o2, ho2, hid2⟩
    simp only [decide_eq_true_eq] at hid2
    have hsplit : (lists.map (fun l => (l.map (fun o => o.doc_id)).count id)).sum =
        ((lists.take (i+1)).map (fun l => (l.map (fun o => o.doc_id)).count id)).sum +
        ((lists.drop (i+1)).map (fun l => (l.map (fun o => o.doc_id)).count id)).sum := by
      conv_lhs => rw [← List.take_append_drop (i+1) lists]
      rw [List.map_append, List.sum_append]
    have hleni : i < (lists.take (i+1)).length := by
      rw [List.length_take]
      omega
    have hS1 : 1 ≤ ((lists.take (i+1)).map
        (fun l => (l.map (fun o => o.doc_id)).count id)).sum := by
      have hmem : lists[i] ∈ lists.take (i+1) := by
        have hg : (lists.take (i+1))[i] = lists[i] := List.getElem_take _
        rw [← hg]
        exact List.getElem_mem _
      calc 1 ≤ ((lists[i]).map (fun o => o.doc_id)).count id := hfi
        _ ≤ _ := List.single_le_sum (fun x _ => Nat.zero_le x) _
          (List.mem_map_of_mem (fun l => (l.map (fun o => o.doc_id)).count id) hmem)
    have hS2 : 1 ≤ ((lists.drop (i+1)).map
        (fun l => (l.map (fun o => o.doc_id)).count id)).sum := by
      have hcl2 : 1 ≤ (l2.map (fun o => o.doc_id)).count id :=
        List.count_pos_iff.mpr (List.mem_map.mpr ⟨o2, ho2, hid2⟩)
      calc 1 ≤ (l2.map (fun o => o.doc_id)).count id := hcl2
        _ ≤ _ := List.single_le_sum (fun x _ => Nat.zero_le x) _
          (List.mem_map_of_mem (fun l => (l.map (fun o => o.doc_id)).count id) hl2)
    omega

/-- Under globally distinct document ids, `reciprocal_rank_fusion` mutates
every occurrence with its fused score and rank. -/
theorem rrfMutate_eq_map (k : ℕ) (lists : List (List SearchResult))
    (hnd : (lists.flatten.map (fun o => o.doc_id)).Nodup) :
    rrfMutate k lists = lists.map (List.map (rrfMutOne (rrfSorted k lists))) := by
  unfold rrfMutate
  apply List.ext_getElem
  · simp
  intro i hi1 hi2
  have hi : i < lists.length := by simpa using hi2
  simp only [List.getElem_map, List.getElem_enum]
  apply List.ext_getElem
  · simp
  intro p hp1 hp2
  have hp : p < (lists[i]).length := by simpa using hp2
  simp only [List.getElem_map, List.getElem_enum]
  rw [occAfter_false_of_nodup lists hnd i p hi hp]
  simp

/-- Round-two RRF score under globally distinct ids: the id at position `j`
of the sorted list scores exactly `1 / (k + j + 1)` when the mutated lists
are fused again. -/
theorem rrfScore_mutate (k : ℕ) (lists : List (List SearchResult))
    (hnd : (lists.flatten.map (fun o => o.doc_id)).Nodup)
    (j : ℕ) (hj : j < (rrfSorted k lists).length) :
    rrfScore k (rrfMutate k lists).flatten ((rrfSorted k lists).get ⟨j, hj⟩).1
      = 1 / ((k : ℚ) + (j : ℚ) + 1) := by
  have hflat : (rrfMutate k lists).flatten
      = lists.flatten.map (rrfMutOne (rrfSorted k lists)) := by
    rw [rrfMutate_eq_map k lists hnd, ← List.map_flatten]
  set id := ((rrfSorted k lists).get ⟨j, hj⟩).1 with hiddef
  have hid_mem : id ∈ rrfIds lists :=
    (rrfSorted_mem k lists _ (List.get_mem _ j hj)).2
  have hex : ∃ o ∈ lists.flatten, o.doc_id = id := by
    have hmem := (mem_uniqFirst _ _).mp hid_mem
    rcases List.mem_map.mp hmem with ⟨o, ho, hoid⟩
    exact ⟨o, ho, hoid⟩
  rcases hex with ⟨o, ho, hoid⟩
  have hfstnd : ((rrfSorted k lists).map (fun p => p.1)).Nodup :=
    ((rrfSorted_fst_perm k lists).nodup_iff).mpr (nodup_uniqFirst _)
  have hfilter : (lists.flatten.map (rrfMutOne (rrfSorted k lists))).filter
      (fun x => x.doc_id = id)
      = (lists.flatten.filter (fun x => x.doc_id = id)).map
          (rrfMutOne (rrfSorted k lists)) := by
    rw [List.filter_map]
    congr 1
    apply List.filter_congr
    intro x _
    simp [rrfMutOne_doc_id]
  have hsingle : lists.flatten.filter (fun x => x.doc_id = id) = [o] := by
    have h := filter_eq_single_of_nodup lists.flatten hnd o ho
    rw [hoid] at h
    exact h
  have hrank : (rrfMutOne (rrfSorted k lists) o).rank = j + 1 := by
    unfold rrfMutOne
    rw [hoid, hiddef, find_enum_fst (rrfSorted k lists) j hj hfstnd]
  unfold rrfScore
  rw [hflat, hfilter, hsingle]
  simp only [List.map_cons, List.map_nil, List.sum_cons, List.sum_nil, add_zero]
  rw [hrank]
  push_cast
  ring_nf

/-- A stable descending sort is uniquely determined when a strictly-sorted
permutation of the input exists. -/
theorem sortDescBy_eq_of_sorted_strict {α : Type} (key : α → ℚ) (l m : List α)
    (hperm : List.Perm l m) (hm : m.Pairwise (fun a b => key b < key a)) :
    sortDescBy key l = m := by
  have hmk : (m.map key).Nodup :=
    (List.pairwise_map).mpr (hm.imp fun h => ne_of_gt h)
  have hlk : ((sortDescBy key l).map key).Nodup := by
    have hp : List.Perm ((sortDescBy key l).map key) (m.map key) :=
      ((sortDescBy_perm key l).trans hperm).map key
    exact (hp.nodup_iff).mpr hmk
  have hsorted : (sortDescBy key l).Pairwise (fun a b => key b < key a) := by
    have h1 := (sortDescBy_pairwise key (fun _ _ => True) l (pairwise_true l)).imp
      (fun h => h.1)
    have h2 : (sortDescBy key l).Pairwise (fun a b => key a ≠ key b) :=
      (List.pairwise_map).mp hlk
    exact (h1.and h2).imp (fun h => lt_of_le_of_ne h.1 h.2.symm)
  haveI : IsAntisymm α (fun a b => key b < key a) :=
    ⟨fun a b h1 h2 => absurd h1 (lt_asymm h2)⟩
  exact List.eq_of_perm_of_sorted ((sortDescBy_perm key l).trans hperm) hsorted hm

unseal Rat.add Rat.mul Rat.inv Rat.sub in
/-- Counterexample to C3: `reciprocal_rank_fusion` mutates the `rank` fields
of its input `SearchResult` objects, so calling it a second time on the same
three lists (whose objects now carry fused ranks) reorders documents x and y:
the first call returns the order w, x, y, p, the second w, y, x, p. -/
theorem claim_C3_counterexample :
    (rrfFused 60 cxLists).map (fun r => r.doc_id) = ["w", "x", "y", "p"]
    ∧ (rrfFused 60 (rrfMutate 60 cxLists)).map (fun r => r.doc_id) = ["w", "y", "x", "p"]
    ∧ ¬ ((rrfFused 60 (rrfMutate 60 cxLists)).map (fun r => r.doc_id)
          = (rrfFused 60 cxLists).map (fun r => r.doc_id)) :=
  ⟨by decide, by decide, by decide⟩

/-- Amended C3.  Because the fusion mutates the rank fields of its inputs,
idempotence holds only when no document appears in more than one of the
lists: under globally distinct doc ids, calling `reciprocal_rank_fusion` a
second time on the same (now mutated) lists yields the same ordering of
documents as the first call. -/
theorem claim_C3_rrf_idempotent_when_disjoint (k : ℕ)
    (lists : List (List SearchResult))
    (hnd : (lists.flatten.map (fun o => o.doc_id)).Nodup) :
    (rrfFused k (rrfMutate k lists)).map (fun r => r.doc_id)
      = (rrfFused k lists).map (fun r => r.doc_id) := by
  rw [rrfFused_ids_eq, rrfFused_ids_eq]
  have hT : rrfSorted k (rrfMutate k lists)
      = (rrfSorted k lists).enum.map
          (fun e => (e.2.1, 1 / ((k : ℚ) + (e.1 : ℚ) + 1))) := by
    have hun : rrfSorted k (rrfMutate k lists)
        = sortDescBy (fun p => p.2) ((rrfIds lists).map
            (fun id => (id, rrfScore k (rrfMutate k lists).flatten id))) := by
      unfold rrfSorted
      rw [rrfIds_mutate]
    rw [hun]
    apply sortDescBy_eq_of_sorted_strict
    · have hTeq : (rrfSorted k lists).enum.map
          (fun e => (e.2.1, 1 / ((k : ℚ) + (e.1 : ℚ) + 1)))
          = ((rrfSorted k lists).map (fun p => p.1)).map
              (fun id => (id, rrfScore k (rrfMutate k lists).flatten id)) := by
        rw [List.map_map]
        apply List.ext_getElem
        · simp
        intro j hj1 hj2
        have hjs : j < (rrfSorted k lists).length := by simpa using hj1
        simp only [List.getElem_map, List.getElem_enum, Function.comp]
        have hsc := rrfScore_mutate k lists hnd j hjs
        have hgg : (rrfSorted k lists).get ⟨j, hjs⟩ = (rrfSorted k lists)[j] := rfl
        rw [hgg] at hsc
        rw [hsc]
      rw [hTeq]
      exact ((rrfSorted_fst_perm k lists).symm.map
        (fun id => (id, rrfScore k (rrfMutate k lists).flatten id)))
    · refine (List.pairwise_map).mpr ?_
      refine (pairwise_fst_lt_enum (rrfSorted k lists)).imp ?_
      intro a b h
      show 1 / ((k : ℚ) + (b.1 : ℚ) + 1) < 1 / ((k : ℚ) + (a.1 : ℚ) + 1)
      have hcast : (a.1 : ℚ) < (b.1 : ℚ) := by exact_mod_cast h
      apply one_div_lt_one_div_of_lt
      · positivity
      · linarith
  rw [hT, List.map_map]
  have hcomp : ((fun p : String × ℚ => p.1) ∘
      (fun e : ℕ × (String × ℚ) => (e.2.1, 1 / ((k : ℚ) + (e.1 : ℚ) + 1))))
      = fun e : ℕ × (String × ℚ) => e.2.1 := rfl
  rw [hcomp]
  have h2 : (rrfSorted k lists).enum.map (fun e => e.2.1)
      = ((rrfSorted k lists).enum.map Prod.snd).map (fun p => p.1) := by
    rw [List.map_map]
    rfl
  rw [h2, List.enum_map_snd]

/-- Claim C5.  With a non-empty filter mapping, every result returned by
`search_with_metadata` has metadata that equals the filter's value at every
filter key (exact equality), and the returned list has length at most
`top_k`. -/
theorem claim_C5_metadata_filter (plog psqrt : ℚ → ℚ) (docs : List Document)
    (query : String) (filters : List (String × String)) (topk : ℕ)
    (hne : filters ≠ []) :
    (∀ r ∈ hybridSearchWithMetadata plog psqrt (hybridBuildIndex plog docs)
        query filters topk,
      ∀ kv ∈ filters, r.metadata.lookup kv.1 = some kv.2)
    ∧ (hybridSearchWithMetadata plog psqrt (hybridBuildIndex plog docs)
        query filters topk).length ≤ topk := by
  constructor
  · intro r hr kv hkv
    simp only [hybridSearchWithMetadata] at hr
    rw [if_neg (by simpa [List.isEmpty_iff] using hne)] at hr
    have hr2 := List.mem_of_mem_take hr
    have hpred := List.of_mem_filter hr2
    rw [List.all_eq_true] at hpred
    have h := hpred kv hkv
    simpa using h
  · simp only [hybridSearchWithMetadata]
    rw [List.length_take]
    exact min_le_left _ _

unseal Rat.add Rat.mul Rat.inv Rat.sub in
/-- Witness for C5 on the demonstration corpus: the single returned result
matches the filter `file_type = "python"` and the result list fits in
`top_k = 1`. -/
theorem claim_C5_metadata_filter_witness :
    demoC5Result.metadata.lookup "file_type" = some "python"
    ∧ (hybridSearchWithMetadata (fun _ => 0) (fun _ => 0)
        (hybridBuildIndex (fun _ => 0) [demoDoc1]) "python"
        [("file_type", "python")] 1).length ≤ 1 :=
  ⟨(claim_C5_metadata_filter (fun _ => 0) (fun _ => 0) [demoDoc1] "python"
      [("file_type", "python")] 1 (by decide)).1 demoC5Result (by decide)
      ("file_type", "python") (by decide),
   (claim_C5_metadata_filter (fun _ => 0) (fun _ => 0) [demoDoc1] "python"
      [("file_type", "python")] 1 (by decide)).2⟩

unseal Rat.add Rat.mul Rat.inv Rat.sub in
/-- Counterexample to C8: with `stage1_top_k = 0` the Python test `if top_k:`
in `CrossEncoderReranker.rerank` is falsy, so the first stage applies no cut
at all and `two_stage_reranking` returns more than `stage1_top_k` results. -/
theorem claim_C8_counterexample :
    (twoStageReranking "" [⟨"doc1", "some text", 1, 1, []⟩] 0 1).length = 1
    ∧ ¬ ((twoStageReranking "" [⟨"doc1", "some text", 1, 1, []⟩] 0 1).length ≤ 0) :=
  ⟨by decide, by decide⟩

/-- Amended C8: the output of `two_stage_reranking` always has length at most
`stage2_top_k`, and at most `stage1_top_k` provided `stage1_top_k ≠ 0` (for
`stage1_top_k = 0` the first-stage cut is skipped by the falsy `if top_k:`
test). -/
theorem claim_C8_two_stage_bounds (query : String) (documents : List RerankDoc)
    (stage1TopK stage2TopK : ℕ) :
    (twoStageReranking query documents stage1TopK stage2TopK).length ≤ stage2TopK
    ∧ (stage1TopK ≠ 0 →
        (twoStageReranking query documents stage1TopK stage2TopK).length
          ≤ stage1TopK) := by
  have hllm : ∀ (q : String) (ds : List RerankDoc) (k : ℕ),
      (llmRerank q ds k).length = min k ds.length := by
    intro q ds k
    simp [llmRerank, List.length_map, List.enum_length, List.length_take,
      sortDescBy_length]
  have hcross : ∀ (q : String) (ds : List RerankDoc) (k : ℕ), k ≠ 0 →
      (crossEncoderRerank q ds (some k)).length = min k ds.length := by
    intro q ds k hk
    simp [crossEncoderRerank, hk, List.length_take, List.length_map,
      List.enum_length, sortDescBy_length, List.length_zip]
  simp only [twoStageReranking]
  constructor
  · rw [hllm]
    exact min_le_left _ _
  · intro h0
    rw [hllm]
    refine le_trans (min_le_right _ _) ?_
    rw [List.length_map, hcross query documents stage1TopK h0]
    exact min_le_left _ _

unseal Rat.add Rat.mul Rat.inv Rat.sub in
/-- Witness for the amended C8 at a concrete call: with both cut-offs at 1 on
a one-document candidate list, the output fits both bounds. -/
theorem claim_C8_two_stage_bounds_witness :
    (twoStageReranking "Python programming"
      [⟨"doc1", "Python is a programming language", 4/5, 1, []⟩] 1 1).length ≤ 1 :=
  (claim_C8_two_stage_bounds "Python programming"
    [⟨"doc1", "Python is a programming language", 4/5, 1, []⟩] 1 1).2 (by decide)

unseal Rat.add Rat.mul Rat.inv Rat.sub in
/-- Witness for the amended C3: on three disjoint singleton lists the second
fusion call returns the same ordering as the first. -/
theorem claim_C3_rrf_idempotent_when_disjoint_witness :
    (rrfFused 60 (rrfMutate 60 [[⟨"a", 0, 1, "", [], "bm25"⟩],
        [⟨"b", 0, 1, "", [], "dense"⟩], [⟨"c", 0, 2, "", [], "splade"⟩]])).map
      (fun r => r.doc_id)
    = (rrfFused 60 [[⟨"a", 0, 1, "", [], "bm25"⟩],
        [⟨"b", 0, 1, "", [], "dense"⟩], [⟨"c", 0, 2, "", [], "splade"⟩]]).map
      (fun r => r.doc_id) :=
  claim_C3_rrf_idempotent_when_disjoint 60
    [[⟨"a", 0, 1, "", [], "bm25"⟩], [⟨"b", 0, 1, "", [], "dense"⟩],
     [⟨"c", 0, 2, "", [], "splade"⟩]] (by decide)

end HybridSearch
